import Mathlib

/-!
Verification development for the searxng-cool music-search core.

Python strings are modelled as `List Char`, Python dicts as insertion-ordered
association lists, machine integers as `Nat`/`Int`, and fallible calls into
the external store (Redis) as explicit outcome values.  Each definition is a
shallow embedding of the function of the same name in the repository; the
source file and symbol are named in the doc comment.
-/

set_option autoImplicit false

namespace SearxCool

/-- Python strings are modelled as lists of characters. -/
abbrev Str := List Char

/-! ## Character and string helpers (ASCII model of Python `str` and `re`) -/

/-- ASCII lowercasing, the relevant fragment of Python `str.lower()`. -/
def lowerChar (c : Char) : Char :=
  if 'A' ≤ c ∧ c ≤ 'Z' then Char.ofNat (c.toNat + 32) else c

/-- `str.lower()`. -/
def lowerStr (s : Str) : Str := s.map lowerChar

/-- Python `\s` (ASCII fragment): space, tab, newline, carriage return,
vertical tab, form feed. -/
def isWs (c : Char) : Bool :=
  c = ' ' ∨ c = '\t' ∨ c = '\n' ∨ c = '\r' ∨ c = Char.ofNat 11 ∨ c = Char.ofNat 12

/-- Python `\d` (ASCII fragment). -/
def isDigitChar (c : Char) : Bool := '0' ≤ c ∧ c ≤ '9'

/-- Python `\w` (ASCII fragment): letters, digits, underscore. -/
def isWordChar (c : Char) : Bool :=
  ('A' ≤ c ∧ c ≤ 'Z') ∨ ('a' ≤ c ∧ c ≤ 'z') ∨ isDigitChar c ∨ c = '_'

/-- `str.strip()`: remove leading and trailing whitespace. -/
def stripWs (s : Str) : Str :=
  ((s.dropWhile isWs).reverse.dropWhile isWs).reverse

/-- Case-insensitive "starts with". -/
def startsWithCI (pat s : Str) : Bool :=
  (pat.map lowerChar).isPrefixOf (s.map lowerChar)

/-- Case-sensitive substring test (`pat in s`). -/
def containsSub (pat s : Str) : Bool :=
  (List.range (s.length + 1)).any fun i => pat.isPrefixOf (s.drop i)

/-- Case-insensitive substring test (a literal pattern compiled with
`re.IGNORECASE`, applied with `search`). -/
def containsCI (pat s : Str) : Bool :=
  (List.range (s.length + 1)).any fun i => startsWithCI pat (s.drop i)

/-- `re.search` of a position-anchored matcher: some position matches. -/
def searchPos (p : Str → Nat → Bool) (s : Str) : Bool :=
  (List.range (s.length + 1)).any (p s)

/-- Is the character at index `i` a `\w` character (false past the end)? -/
def wordCharAt (s : Str) (i : Nat) : Bool :=
  match s.drop i with
  | c :: _ => isWordChar c
  | [] => false

/-- `\b` before index `i`, for a pattern whose first character is a word
character: start of string, or the previous character is not `\w`. -/
def boundaryAt (s : Str) (i : Nat) : Bool :=
  decide (i = 0) || !wordCharAt s (i - 1)

/-- Consume a literal (case-insensitively), or fail. -/
def eatLitCI (pat t : Str) : Option Str :=
  if startsWithCI pat t then some (t.drop pat.length) else none

/-- Consume `\s*`. -/
def eatWs (t : Str) : Str := t.dropWhile isWs

/-- Consume `\s+` (at least one whitespace character), or fail. -/
def eatWs1 (t : Str) : Option Str :=
  match t with
  | c :: rest => if isWs c then some (rest.dropWhile isWs) else none
  | [] => none

/-- Decimal value of a digit run (Python `int` on a digit string). -/
def digitsToNat (t : Str) : Nat :=
  t.foldl (fun a c => a * 10 + (c.toNat - 48)) 0

/-! ## Rate limiter — `src/music/rate_limiter/limiter.py`, class `RateLimiter` -/

namespace RateLimiter

/-- The Redis sorted set behind one rate-limiter key.  `acquire` writes with
`zadd(key, {str(now): now})`: the member is the decimal rendering of the
integer second and the score is that same second, so distinct members
correspond exactly to distinct integer seconds and the set is faithfully a
finite set of `Nat` timestamps. -/
abbrev Window := Finset Nat

/-- `pipe.zremrangebyscore(key, 0, now - period)`: remove every member whose
score lies in `[0, now - period]`, i.e. keep exactly the timestamps `x` with
`x + period > now` (this phrasing avoids truncated subtraction and agrees
with the Python semantics also when `now < period`, where the removal range
is empty). -/
def prune (period now : Nat) (s : Window) : Window :=
  s.filter (fun x => now < x + period)

/-- Outcome of a call into the external store: either a value or a raised
exception. -/
inductive StoreResult (α : Type) where
  | ok (a : α)
  | err
deriving DecidableEq

/-- `RateLimiter.acquire(identifier, limit, period)` with the store
interaction made explicit.  `store` is the outcome of the
`zremrangebyscore`/`zcard` pipeline (an exception there is caught by the
surrounding `try` and the method returns `True`, fail-open); when the pruned
count is under the limit the method issues `zadd`, whose failure is likewise
caught and turned into `True`.  Returns the decision and the resulting store
contents. -/
def acquireFallible (limit period now : Nat) (store : StoreResult Window)
    (zaddFails : Bool) : Bool × StoreResult Window :=
  match store with
  | .err => (true, .err)
  | .ok s =>
    let s' := prune period now s
    if s'.card < limit then
      if zaddFails then (true, .ok s') else (true, .ok (insert now s'))
    else (false, .ok s')

/-- `RateLimiter.acquire` against a healthy store: prune the window, count,
and record `now` when under the limit. -/
def acquireStep (limit period now : Nat) (s : Window) : Bool × Window :=
  let s' := prune period now s
  if s'.card < limit then (true, insert now s') else (false, s')

/-- A sequence of `acquire` calls at the given times against a healthy
store, returning the list of grant decisions. -/
def acquireTrace (limit period : Nat) (times : List Nat) (s : Window) :
    List Bool :=
  match times with
  | [] => []
  | t :: ts =>
    let step := acquireStep limit period t s
    step.1 :: acquireTrace limit period ts step.2

end RateLimiter

/-! ## Cache — `src/music/cache/music_cache.py`, class `MusicCache` -/

/-- `MusicCache.get(key)`.  When the cache is disabled the method returns
`None` immediately; otherwise the Redis `get` either raises (caught by the
`try`, yielding `None`), returns no value (`None`), or returns the payload.
Decompression of a healthy payload is modelled as the identity on the decoded
string — an inner decompression failure is swallowed (`except: pass`) and a
decode failure is an exception of the outer `try`, covered by `.err`. -/
def cacheGet (enabled : Bool) (store : RateLimiter.StoreResult (Option Str)) :
    Option Str :=
  if enabled then
    match store with
    | .err => none
    | .ok none => none
    | .ok (some v) => some v
  else none

/-! ## Python values and dicts

Search results travel through the pipeline as Python dicts.  They are
modelled as insertion-ordered association lists of string keys; values are a
Python-value sum.  Numeric values are integers (`Int`); the float confidence
scores of the classifier are modelled in hundredths (see below). -/

/-- A Python value, as far as the pipeline inspects one. -/
inductive PyVal where
  | vnone
  | vbool (b : Bool)
  | vint (n : Int)
  | vstr (s : Str)
  | vlist (xs : List PyVal)
  | vdict (entries : List (Str × PyVal))

/-- A Python dict with string keys, in insertion order. -/
abbrev PyDict := List (Str × PyVal)

/-- `d[k]` as an option (first — unique — matching key). -/
def dictGet (d : PyDict) (k : Str) : Option PyVal :=
  match d with
  | [] => none
  | (k', v) :: rest => if k' = k then some v else dictGet rest k

/-- `d.get(k, dflt)`. -/
def dictGetD (d : PyDict) (k : Str) (dflt : PyVal) : PyVal :=
  (dictGet d k).getD dflt

/-- `k in d`. -/
def hasKey (d : PyDict) (k : Str) : Bool :=
  (dictGet d k).isSome

/-- `d[k] = v`: update in place when the key exists (keeping its position),
else append — Python dict assignment semantics. -/
def dictSet (d : PyDict) (k : Str) (v : PyVal) : PyDict :=
  match d with
  | [] => [(k, v)]
  | (k', v') :: rest =>
    if k' = k then (k, v) :: rest else (k', v') :: dictSet rest k v

/-- Python truthiness of a value. -/
def pyTruthy : PyVal → Bool
  | .vnone => false
  | .vbool b => b
  | .vint n => n != 0
  | .vstr s => !s.isEmpty
  | .vlist xs => !xs.isEmpty
  | .vdict es => !es.isEmpty

/-- The string content of a value.  The pipeline reads `title`, `url`,
`content` and `engine` as strings; a non-string value there would raise in
Python (e.g. `.strip()` on an int), so only string-valued fields are
modelled and other values are read as `""`. -/
def asStr : PyVal → Str
  | .vstr s => s
  | _ => []

/-! ## Content classifier — `src/orchestrator/services/content_classifier.py`

Confidence scores are floats in the source (`0.95`, sums of `0.3`/`0.2`
steps, …); they are modelled in hundredths.  Over every reachable sum of the
classifier's score steps the IEEE-double comparisons performed by the code
(`> 0.7`, `> 0.5`) agree with exact decimal arithmetic: e.g. the float sum
`0.3 + 0.2 + 0.2` is exactly the double literal `0.7`, so `> 0.7` is false
there, just as `70 > 70` is; `0.3 + 0.3 + 0.2` is strictly above the literal
`0.7`, as `80 > 70` is. -/

/-- `\b<w>\b` with `re.IGNORECASE`, via `search` — used for
`\bradio\b`, `\bfm\b`, `\bam\b`, `\bstation\b`, `\bpodcast\b`,
`\bepisode\b`, `\bshow\b`, `\binterview\b`, `\btalk\b`. -/
def reWord (w : Str) (s : Str) : Bool :=
  searchPos (fun s i =>
    boundaryAt s i && startsWithCI w (s.drop i) && !wordCharAt s (i + w.length)) s

/-- `\bbroadcast` (no closing boundary). -/
def reBroadcast (s : Str) : Bool :=
  searchPos (fun s i => boundaryAt s i && startsWithCI "broadcast".toList (s.drop i)) s

/-- `\blive\s+stream`. -/
def reLiveStream (s : Str) : Bool :=
  searchPos (fun s i =>
    boundaryAt s i &&
    match eatLitCI "live".toList (s.drop i) with
    | some t =>
      match eatWs1 t with
      | some t2 => startsWithCI "stream".toList t2
      | none => false
    | none => false) s

/-- `\bonline\s+radio`. -/
def reOnlineRadio (s : Str) : Bool :=
  searchPos (fun s i =>
    boundaryAt s i &&
    match eatLitCI "online".toList (s.drop i) with
    | some t =>
      match eatWs1 t with
      | some t2 => startsWithCI "radio".toList t2
      | none => false
    | none => false) s

/-- `#\s*TOP\s*\d+\s*DJ`. -/
def reTopDj (s : Str) : Bool :=
  searchPos (fun s i =>
    match s.drop i with
    | '#' :: rest =>
      (match eatLitCI "top".toList (eatWs rest) with
       | some t =>
         (match eatWs t with
          | c :: _ =>
            isDigitChar c &&
            startsWithCI "dj".toList (eatWs ((eatWs t).dropWhile isDigitChar))
          | [] => false)
       | none => false)
    | _ => false) s

/-- `CHARTS\s*RADIO`. -/
def reChartsRadio (s : Str) : Bool :=
  searchPos (fun s i =>
    match eatLitCI "charts".toList (s.drop i) with
    | some t => startsWithCI "radio".toList (eatWs t)
    | none => false) s

/-- `ContentClassifier.RADIO_PATTERNS`, compiled with `IGNORECASE`, in
source order (the content check uses the first five). -/
def radioPatterns : List (Str → Bool) :=
  [reWord "radio".toList, reWord "fm".toList, reWord "am".toList,
   reWord "station".toList, reBroadcast, reLiveStream, reOnlineRadio,
   containsCI "exclusive.radio".toList, containsCI "radio.com".toList,
   containsCI "tunein.com".toList, reTopDj, reChartsRadio]

/-- `\bep\.\s*\d+`. -/
def reEpNum (s : Str) : Bool :=
  searchPos (fun s i =>
    boundaryAt s i &&
    match eatLitCI "ep.".toList (s.drop i) with
    | some t =>
      (match eatWs t with
       | c :: _ => isDigitChar c
       | [] => false)
    | none => false) s

/-- `ContentClassifier.PODCAST_PATTERNS`. -/
def podcastPatterns : List (Str → Bool) :=
  [reWord "podcast".toList, reWord "episode".toList, reEpNum,
   reWord "show".toList, reWord "interview".toList, reWord "talk".toList]

/-- One attempt of `(\d+):(\d{2})(?::(\d{2}))?` at a position: a maximal
digit run, `:`, exactly two digits, then optionally `:` and two more digits.
Returns seconds, as `ContentClassifier._parse_duration` computes them. -/
def ccDurationAt (t : Str) : Option Nat :=
  let run := t.takeWhile isDigitChar
  if run = [] then none
  else
    match t.drop run.length with
    | ':' :: d1 :: d2 :: rest2 =>
      if isDigitChar d1 ∧ isDigitChar d2 then
        let a := digitsToNat run
        let b := digitsToNat [d1, d2]
        match rest2 with
        | ':' :: e1 :: e2 :: _ =>
          if isDigitChar e1 ∧ isDigitChar e2 then
            some (a * 3600 + b * 60 + digitsToNat [e1, e2])
          else some (a * 60 + b)
        | _ => some (a * 60 + b)
      else none
    | _ => none

/-- `ContentClassifier._parse_duration(text)`: leftmost match of the
duration regex, in seconds. -/
def ccParseDuration (s : Str) : Option Nat :=
  (List.range (s.length + 1)).findSome? fun i => ccDurationAt (s.drop i)

/-- `^([^-]+)\s*-\s*([^-]+)$` under `re.match`: both groups exclude `-`, so
the title matches exactly when it contains a single `-` that is neither the
first nor the last character (the `\s*` are absorbed by the groups).  `$`
is modelled as end-of-string (the code never feeds a trailing-newline
title from its own pipeline). -/
def musicDashMatch (t : Str) : Bool :=
  t.count '-' = 1 && t.head? ≠ some '-' && t.getLast? ≠ some '-'

/-- `^([^-]+)\s+by\s+([^-]+)$` under `re.match` with `IGNORECASE`: no `-`
anywhere, and some split `A ++ ws+ ++ "by" ++ ws+ ++ B` with `A`, `B`
nonempty (after the maximal whitespace run following `by` at least one more
character must remain, or the run itself must be long enough to donate a
character to `B`, i.e. at least two characters follow `by`, the first being
whitespace). -/
def musicByMatch (t : Str) : Bool :=
  !t.contains '-' &&
  (List.range (t.length + 1)).any fun i =>
    decide (0 < i) &&
    match eatWs1 (t.drop i) with
    | some r =>
      (match eatLitCI "by".toList r with
       | some r2 =>
         (match r2 with
          | c :: _ :: _ => isWs c
          | _ => false)
       | none => false)
    | none => false

/-- `ContentClassifier._has_music_metadata`. -/
def hasMusicMetadata (r : PyDict) : Bool :=
  ["artist", "album", "duration", "track", "isrc"].any fun f =>
    hasKey r f.toList

/-- `ContentClassifier._calculate_radio_score(title, url, content)` in
hundredths (`+0.3`/`+0.2` become `+30`/`+20`), with `min(score, 1.0)` as
`min _ 100`.  `url` and `content` arrive lowercased from `classify`. -/
def radioScore (title url content : Str) : Nat :=
  let s1 := if radioPatterns.any (fun p => p title) then 30 else 0
  let s2 :=
    if ["radio", "fm", "stream", "live", "broadcast"].any
        (fun d => containsSub d.toList url) then 30 else 0
  let s3 := if (radioPatterns.take 5).any (fun p => p content) then 20 else 0
  let s4 :=
    match ccParseDuration content with
    | none => 20
    | some d => if 3600 < d then 20 else 0
  min (s1 + s2 + s3 + s4) 100

/-- `ContentClassifier._calculate_music_score(result)` in hundredths.  The
duration bonus requires a truthy (nonzero) parsed duration in `[30, 900]`;
`30 ≤ d` already excludes `0`. -/
def musicScore (r : PyDict) : Nat :=
  let title := asStr (dictGetD r "title".toList (.vstr []))
  let s1 := if musicDashMatch title || musicByMatch title then 40 else 0
  let s2 := if hasMusicMetadata r then 30 else 0
  let s3 :=
    match ccParseDuration (asStr (dictGetD r "content".toList (.vstr []))) with
    | some d => if 30 ≤ d ∧ d ≤ 900 then 20 else 0
    | none => 0
  let s4 :=
    if ["bandcamp", "soundcloud", "jamendo", "mixcloud"].any
        (fun e => containsSub e.toList
          (lowerStr (asStr (dictGetD r "engine".toList (.vstr []))))) then 30
    else 0
  min (s1 + s2 + s3 + s4) 100

/-- The lowercased `engine` field, as `classify` reads it. -/
def engineOf (r : PyDict) : Str :=
  lowerStr (asStr (dictGetD r "engine".toList (.vstr [])))

/-- The radio score of a result as `classify` computes it: stripped title,
lowercased url and content. -/
def radioScoreOf (r : PyDict) : Nat :=
  radioScore (stripWs (asStr (dictGetD r "title".toList (.vstr []))))
    (lowerStr (asStr (dictGetD r "url".toList (.vstr []))))
    (lowerStr (asStr (dictGetD r "content".toList (.vstr []))))

/-- `ContentClassifier._is_podcast(title, content)` on the stripped title
and lowercased content: the combination is lowercased again by the code. -/
def isPodcastOf (r : PyDict) : Bool :=
  podcastPatterns.any fun p =>
    p (lowerStr (stripWs (asStr (dictGetD r "title".toList (.vstr []))) ++
        ' ' :: lowerStr (asStr (dictGetD r "content".toList (.vstr [])))))

/-- `ContentClassifier.classify(result)`: content type and confidence (in
hundredths). -/
def classify (r : PyDict) : Str × Nat :=
  if engineOf r = "radio browser".toList then ("radio_station".toList, 95)
  else if engineOf r = "genius".toList ∨ engineOf r = "genius lyrics".toList then
    ("lyrics".toList, 95)
  else if 70 < radioScoreOf r then ("radio_station".toList, radioScoreOf r)
  else if isPodcastOf r then ("podcast".toList, 80)
  else if 50 < musicScore r then ("music_track".toList, musicScore r)
  else if engineOf r = "youtube".toList &&
      containsSub "youtube.com".toList
        (lowerStr (asStr (dictGetD r "url".toList (.vstr [])))) then
    if hasMusicMetadata r then ("video".toList, 70) else ("unknown".toList, 30)
  else ("unknown".toList, 0)

/-- The in-place annotation `result['_content_type'] = ct;
result['_confidence'] = conf` performed by `filter_results` on every input
result (the float confidence is stored in hundredths). -/
def annotate (r : PyDict) : PyDict :=
  dictSet (dictSet r "_content_type".toList (.vstr (classify r).1))
    "_confidence".toList (.vint (classify r).2)

/-- `ContentClassifier.filter_results(results, allowed_types)`: classify
each result, annotate it, and keep — in order — those whose content type is
allowed.  The stats counters only feed a log line and are not modelled. -/
def filterResults (rs : List PyDict) (allowed : List Str) : List PyDict :=
  match rs with
  | [] => []
  | r :: rest =>
    if (classify r).1 ∈ allowed then annotate r :: filterResults rest allowed
    else filterResults rest allowed

/-- The default `allowed_types`: `[MUSIC_TRACK, VIDEO]`. -/
def defaultAllowed : List Str := ["music_track".toList, "video".toList]

/-! ## Decimal rendering and digest model -/

/-- The character of a decimal digit. -/
def digitChar (d : Nat) : Char := Char.ofNat (48 + d)

/-- Decimal digits of `n`, least significant first, driven by fuel so that
the definition is structural (it agrees with `Nat.digits 10 n` whenever
`n ≤ fuel`). -/
def natDigitsRev (fuel n : Nat) : List Nat :=
  match fuel with
  | 0 => []
  | fuel + 1 => if n = 0 then [] else n % 10 :: natDigitsRev fuel (n / 10)

/-- Decimal rendering of a natural number (Python `str(n)` for `n ≥ 0`). -/
def natToStr (n : Nat) : Str :=
  if n = 0 then ['0'] else ((natDigitsRev n n).map digitChar).reverse

/-- Decimal rendering of an integer. -/
def intToStr (n : Int) : Str :=
  if n < 0 then '-' :: natToStr n.natAbs else natToStr n.natAbs

/-- Two-digit zero-padded rendering (`f"{s:02d}"` for `0 ≤ s`). -/
def pad2 (n : Nat) : Str :=
  if n < 10 then '0' :: natToStr n else natToStr n

/-- A hexadecimal digit character. -/
def hexDigit (d : Nat) : Char :=
  if d < 10 then Char.ofNat (48 + d) else Char.ofNat (87 + d)

/-- Models `hashlib.md5(s.encode()).hexdigest()`: a deterministic
32-hex-character digest of the input string.  The properties at issue
(determinism of `stable_key` and `unified_id`, digest length) depend only on
the digest being a fixed function with 32 hex output characters, so the MD5
compression rounds are modelled by a polynomial rolling hash. -/
def md5hex (s : Str) : Str :=
  let h := s.foldl (fun a c => (a * 131 + c.toNat) % (2 ^ 128)) 5381
  (List.range 32).map fun i => hexDigit (h / 16 ^ (31 - i) % 16)

/-! ## String helpers shared by the aggregation service -/

/-- Worker for `str.replace(pat, '')`, driven by fuel (one unit per
character suffices: every step consumes at least one character). -/
def pyRemoveAllAux (pat : Str) (fuel : Nat) (s : Str) : Str :=
  match fuel with
  | 0 => s
  | fuel + 1 =>
    match s with
    | [] => []
    | c :: rest =>
      if pat ≠ [] ∧ pat.isPrefixOf (c :: rest) then
        pyRemoveAllAux pat fuel (rest.drop (pat.length - 1))
      else c :: pyRemoveAllAux pat fuel rest

/-- `str.replace(pat, '')` for a nonempty pattern: remove all
non-overlapping occurrences, scanning left to right. -/
def pyRemoveAll (pat : Str) (s : Str) : Str :=
  pyRemoveAllAux pat s.length s

/-- Split on every whitespace character (segments may be empty). -/
def splitWsAll (s : Str) : List Str :=
  s.foldr
    (fun c acc =>
      if isWs c then [] :: acc
      else
        match acc with
        | w :: rest => (c :: w) :: rest
        | [] => [[c]])
    [[]]

/-- Python `str.split()` with no arguments: whitespace-separated words, no
empty segments. -/
def pyWords (s : Str) : List Str :=
  (splitWsAll s).filter fun w => !w.isEmpty

/-! ## Aggregation service —
`src/orchestrator/services/music_aggregation_service.py` -/

/-- The normalization `_generate_unified_id` applies before hashing:
lowercase and strip both parts, join with `:`, drop `feat.` and `ft.`,
collapse whitespace. -/
def uidNormalize (title artist : Str) : Str :=
  List.intercalate [' ']
    (pyWords (pyRemoveAll "ft.".toList (pyRemoveAll "feat.".toList
      (stripWs (lowerStr artist) ++ ':' :: stripWs (lowerStr title)))))

/-- `MusicAggregationService._generate_unified_id(title, artist)`: the
first 12 hex characters of the digest of the normalized pair. -/
def generateUnifiedId (title artist : Str) : Str :=
  (md5hex (uidNormalize title artist)).take 12

/-- The per-engine record stored in `UnifiedTrack.platforms[platform]` by
`_create_unified_tracks` (`url`, `engine`, `content`, `publishedDate`;
`embedded` is only carried along and is not modelled). -/
structure PlatformInfo where
  url : Str
  engine : Str := []
  content : Str := []
  publishedDate : Str := []

/-- The `UnifiedTrack` dataclass.  `first_seen` (a wall-clock timestamp) is
not modelled; `popularity_score` is a float in the source but every
reachable value is a nonnegative integer. -/
structure UnifiedTrack where
  unified_id : Str
  title : Str
  artist : Str
  album : Option Str := none
  platforms : List (Str × PlatformInfo) := []
  genres : List Str := []
  release_date : Option Str := none
  duration_ms : Option Int := none
  popularity_score : Nat := 0
  play_count_total : Nat := 0
  tags : List Str := []

/-- The fixed platform weights of `_calculate_popularity`; any engine not in
the table scores `platform_scores.get(platform, 5) = 5`. -/
def platformWeight (name : Str) : Nat :=
  if name = "youtube".toList then 30
  else if name = "spotify".toList then 25
  else if name = "soundcloud".toList then 20
  else if name = "bandcamp".toList then 15
  else if name = "deezer".toList then 10
  else if name = "mixcloud".toList then 10
  else if name = "genius".toList then 5
  else 5

/-- `MusicAggregationService._calculate_popularity(track)`: sum the weights
of the track's platforms, add `10` per platform, cap at `100`. -/
def calculatePopularity (t : UnifiedTrack) : Nat :=
  min 100 ((t.platforms.map fun p => platformWeight p.1).sum +
    t.platforms.length * 10)

/-- The `UniversalPlaylist` class, as far as `export_to_m3u` reads it
(`id`, `description` and the timestamps do not appear in the export). -/
structure UniversalPlaylist where
  name : Str
  tracks : List UnifiedTrack := []

/-- The first platform entry with a truthy `url`, as the `for`/`break` loop
of `export_to_m3u` finds it. -/
def firstUrl (t : UnifiedTrack) : Option Str :=
  (t.platforms.find? fun p => !p.2.url.isEmpty).map fun p => p.2.url

/-- `track.duration_ms // 1000 if track.duration_ms else -1` (a `None` or
zero duration is falsy; `//` is floor division). -/
def m3uDuration (d : Option Int) : Int :=
  match d with
  | some n => if n ≠ 0 then Int.fdiv n 1000 else -1
  | none => -1

/-- The `#EXTINF:<duration>,<artist> - <title>` line of one track. -/
def extinfLine (t : UnifiedTrack) : Str :=
  "#EXTINF:".toList ++ intToStr (m3uDuration t.duration_ms) ++
    ',' :: t.artist ++ " - ".toList ++ t.title

/-- The two lines (plus blank separator) emitted for one track, or nothing
when no platform has a URL. -/
def m3uChunk (t : UnifiedTrack) : Str :=
  match firstUrl t with
  | some u => extinfLine t ++ '\n' :: u ++ ['\n', '\n']
  | none => []

/-- `UniversalPlaylist.export_to_m3u()`: the `#EXTM3U` header line, the
`#PLAYLIST:<name>` line, a blank line, then the per-track chunks. -/
def exportToM3u (p : UniversalPlaylist) : Str :=
  "#EXTM3U".toList ++ '\n' :: "#PLAYLIST:".toList ++ p.name ++
    '\n' :: '\n' :: (p.tracks.map m3uChunk).flatten

/-- Split a string into its lines at `\n` (`n` separators yield `n + 1`
segments). -/
def splitLines (s : Str) : List Str :=
  match s with
  | [] => [[]]
  | c :: rest =>
    if c = '\n' then [] :: splitLines rest
    else
      match splitLines rest with
      | l :: ls => (c :: l) :: ls
      | [] => [[c]]

/-- The number of `#EXTINF` lines of an export. -/
def countExtinfLines (s : Str) : Nat :=
  (splitLines s).countP fun l => "#EXTINF:".toList.isPrefixOf l

/-- A track available on no platform: `export_to_m3u` emits nothing for
it. -/
def urllessTrack : UnifiedTrack :=
  { unified_id := "0123456789ab".toList,
    title := "Song".toList, artist := "Artist".toList }

/-- A playlist holding only the URL-less track. -/
def urllessPlaylist : UniversalPlaylist :=
  { name := "p".toList, tracks := [urllessTrack] }

/-- A playlist with one ordinary track, for the M3U witness. -/
def samplePlaylist : UniversalPlaylist :=
  { name := "mix".toList,
    tracks := [{ unified_id := "0123456789ab".toList,
                 title := "Around the World".toList,
                 artist := "Daft Punk".toList,
                 duration_ms := some 428000,
                 platforms := [("soundcloud".toList,
                   { url := "https://soundcloud.com/x".toList })] }] }

/-! ## Data validator — `src/orchestrator/services/data_validator.py`

`_sanitize_text` chains `html.unescape`, one removal pass per dangerous
pattern (in source order), whitespace collapapsing and stripping.  The regex
substitutions remove non-overlapping matches scanning left to right and
continue after each match, exactly as `re.sub(..., '')` does. -/

/-- Fuel-driven worker for `htmlUnescape` (each step consumes at least one
character). -/
def htmlUnescapeAux (fuel : Nat) (s : Str) : Str :=
  match fuel with
  | 0 => s
  | fuel + 1 =>
    match s with
    | [] => []
    | '&' :: rest =>
      if "amp;".toList.isPrefixOf rest then
        '&' :: htmlUnescapeAux fuel (rest.drop 4)
      else if "lt;".toList.isPrefixOf rest then
        '<' :: htmlUnescapeAux fuel (rest.drop 3)
      else if "gt;".toList.isPrefixOf rest then
        '>' :: htmlUnescapeAux fuel (rest.drop 3)
      else if "quot;".toList.isPrefixOf rest then
        '"' :: htmlUnescapeAux fuel (rest.drop 5)
      else if "#39;".toList.isPrefixOf rest then
        '\'' :: htmlUnescapeAux fuel (rest.drop 4)
      else '&' :: htmlUnescapeAux fuel rest
    | c :: rest => c :: htmlUnescapeAux fuel rest

/-- Models `html.unescape` on the common named/numeric entities; on
ampersand-free text it is the identity, which is all the development's
inputs exercise. -/
def htmlUnescape (s : Str) : Str := htmlUnescapeAux s.length s

/-- One attempt of `<script[^>]*>.*?</script>` (IGNORECASE, DOTALL) at the
head of `t`: `<script`, a maximal run of non-`>` characters, `>`, then the
non-greedy body up to the nearest `</script>`.  Returns the remainder after
the closing tag. -/
def scriptMatchAt (t : Str) : Option Str :=
  match eatLitCI "<script".toList t with
  | none => none
  | some r =>
    match r.dropWhile (fun c => !(c = '>')) with
    | '>' :: body => scriptFindClose body
    | _ => none
where
  /-- Leftmost `</script>` (case-insensitive); remainder after it. -/
  scriptFindClose : Str → Option Str
    | [] => none
    | c :: rest =>
      if startsWithCI "</script>".toList (c :: rest) then
        some ((c :: rest).drop 9)
      else scriptFindClose rest

/-- `re.sub(r'<script[^>]*>.*?</script>', '', s)`.  Driven by fuel (one
unit per character suffices: every removal consumes at least one
character). -/
def removeScriptTagsAux (fuel : Nat) (s : Str) : Str :=
  match fuel with
  | 0 => s
  | fuel + 1 =>
    match s with
    | [] => []
    | c :: rest =>
      match scriptMatchAt (c :: rest) with
      | some remainder => removeScriptTagsAux fuel remainder
      | none => c :: removeScriptTagsAux fuel rest

/-- The script-tag removal pass. -/
def removeScriptTags (s : Str) : Str := removeScriptTagsAux s.length s

/-- Fuel-driven worker for the case-insensitive literal removal. -/
def pyRemoveAllCIAux (pat : Str) (fuel : Nat) (s : Str) : Str :=
  match fuel with
  | 0 => s
  | fuel + 1 =>
    match s with
    | [] => []
    | c :: rest =>
      if pat ≠ [] ∧ startsWithCI pat (c :: rest) then
        pyRemoveAllCIAux pat fuel (rest.drop (pat.length - 1))
      else c :: pyRemoveAllCIAux pat fuel rest

/-- `re.sub` removal of a case-insensitive literal pattern (used for
`javascript:` and `data:text/html`). -/
def pyRemoveAllCI (pat : Str) (s : Str) : Str :=
  pyRemoveAllCIAux pat s.length s

/-- One attempt of `on\w+\s*=` (IGNORECASE) at the head of `t`: `on`, a
maximal nonempty run of word characters, optional whitespace, `=`.  Returns
the remainder after the `=`. -/
def onHandlerAt (t : Str) : Option Str :=
  match eatLitCI "on".toList t with
  | none => none
  | some r =>
    let run := r.takeWhile isWordChar
    if run = [] then none
    else
      match (r.drop run.length).dropWhile isWs with
      | '=' :: rest => some rest
      | _ => none

/-- `re.sub(r'on\w+\s*=', '', s)`, fuel-driven like the script pass. -/
def removeOnHandlersAux (fuel : Nat) (s : Str) : Str :=
  match fuel with
  | 0 => s
  | fuel + 1 =>
    match s with
    | [] => []
    | c :: rest =>
      match onHandlerAt (c :: rest) with
      | some remainder => removeOnHandlersAux fuel remainder
      | none => c :: removeOnHandlersAux fuel rest

/-- The event-handler removal pass. -/
def removeOnHandlers (s : Str) : Str := removeOnHandlersAux s.length s

/-- Fuel-driven worker for the whitespace collapse. -/
def collapseWsAux (fuel : Nat) (s : Str) : Str :=
  match fuel with
  | 0 => s
  | fuel + 1 =>
    match s with
    | [] => []
    | c :: rest =>
      if isWs c then ' ' :: collapseWsAux fuel (rest.dropWhile isWs)
      else c :: collapseWsAux fuel rest

/-- `re.sub(r'\s+', ' ', s)`: collapse every whitespace run to one space. -/
def collapseWs (s : Str) : Str := collapseWsAux s.length s

/-- `DataValidator._sanitize_text(text)`: empty text short-circuits;
otherwise entity-decode, remove the four dangerous patterns in order,
collapse whitespace, strip. -/
def sanitizeText (s : Str) : Str :=
  if s.isEmpty then []
  else
    stripWs (collapseWs
      (pyRemoveAllCI "data:text/html".toList
        (removeOnHandlers
          (pyRemoveAllCI "javascript:".toList
            (removeScriptTags (htmlUnescape s))))))

/-- `DataValidator._sanitize_url(url)`: require an `http(s)://` prefix
(case-sensitive), reject `javascript:`/`data:`/`vbscript:` substrings of the
lowercased URL, truncate to 2000. -/
def sanitizeUrl (u : Str) : Str :=
  if u.isEmpty then []
  else
    let t := stripWs u
    if !("http://".toList.isPrefixOf t || "https://".toList.isPrefixOf t) then []
    else if ["javascript:", "data:", "vbscript:"].any
        (fun p => containsSub p.toList (lowerStr t)) then []
    else t.take 2000

/-- Generic split of a string at every separator character selected by `p`
(`n` separators yield `n + 1` segments). -/
def splitByPred (p : Char → Bool) (s : Str) : List Str :=
  match s with
  | [] => [[]]
  | c :: rest =>
    if p c then [] :: splitByPred p rest
    else
      match splitByPred p rest with
      | l :: ls => (c :: l) :: ls
      | [] => [[c]]

/-- Python `str.split(sep)` for a single-character separator. -/
def splitChar (sep : Char) (s : Str) : List Str :=
  splitByPred (fun c => c = sep) s

/-- `DataValidator._parse_duration_string`:
`^(?:(\d+):)?(\d+):(\d{2})$` on the stripped input, to milliseconds.  The
anchored regex accepts exactly a `digits:digits:2-digits` or
`digits:2-digits` split. -/
def vParseDurationString (s : Str) : Option Nat :=
  match splitChar ':' (stripWs s) with
  | [a, b] =>
    if a ≠ [] ∧ a.all isDigitChar ∧ b.length = 2 ∧ b.all isDigitChar then
      some ((digitsToNat a * 60 + digitsToNat b) * 1000)
    else none
  | [a, b, c] =>
    if a ≠ [] ∧ a.all isDigitChar ∧ b ≠ [] ∧ b.all isDigitChar ∧
        c.length = 2 ∧ c.all isDigitChar then
      some ((digitsToNat a * 3600 + digitsToNat b * 60 + digitsToNat c) * 1000)
    else none
  | _ => none

/-- `DataValidator._validate_duration(duration)`: strings are parsed
(a zero parse is falsy and rejected), numbers under 1000 are seconds and
are scaled to ms (Python `bool` is an `int`, so booleans take the numeric
branch), and anything outside `[1000, 14400000]` becomes `None`. -/
def validateDuration (v : PyVal) : Option Int :=
  match v with
  | .vstr s =>
    match vParseDurationString s with
    | some ms =>
      if ms ≠ 0 ∧ 1000 ≤ ms ∧ ms ≤ 14400000 then some ms else none
    | none => none
  | .vint n =>
    let ms : Int := if n < 1000 then n * 1000 else n
    if 1000 ≤ ms ∧ ms ≤ 14400000 then some ms else none
  | .vbool b =>
    let n : Int := if b then 1 else 0
    let ms : Int := n * 1000
    if 1000 ≤ ms ∧ ms ≤ 14400000 then some ms else none
  | _ => none

/-! Python `str()`/`repr()` of the modelled values.  `str` equals `repr`
except on strings; repr string-escaping is not modelled (no theorem input
needs escapes). -/

mutual

/-- Python `repr(v)` over the modelled value shapes. -/
def pyRepr : PyVal → Str
  | .vnone => "None".toList
  | .vbool b => if b then "True".toList else "False".toList
  | .vint n => intToStr n
  | .vstr s => '\'' :: s ++ ['\'']
  | .vlist xs => '[' :: pyReprList xs ++ [']']
  | .vdict es => '{' :: pyReprEntries es ++ ['}']

/-- Comma-separated element reprs. -/
def pyReprList : List PyVal → Str
  | [] => []
  | [v] => pyRepr v
  | v :: rest => pyRepr v ++ ',' :: ' ' :: pyReprList rest

/-- Comma-separated `'key': value` reprs. -/
def pyReprEntries : List (Str × PyVal) → Str
  | [] => []
  | [(k, v)] => '\'' :: k ++ '\'' :: ':' :: ' ' :: pyRepr v
  | (k, v) :: rest =>
    ('\'' :: k ++ '\'' :: ':' :: ' ' :: pyRepr v) ++ ',' :: ' ' :: pyReprEntries rest

end

/-- Python `str(v)`. -/
def pyStr (v : PyVal) : Str :=
  match v with
  | .vstr s => s
  | _ => pyRepr v

/-- One list item of `_sanitize_metadata`: strings are sanitized and capped
at 100, numbers and booleans pass, anything else is dropped. -/
def sanitizeMetaItem : PyVal → Option PyVal
  | .vstr s => some (.vstr ((sanitizeText s).take 100))
  | .vint n => some (.vint n)
  | .vbool b => some (.vbool b)
  | _ => none

/-- One value of `_sanitize_metadata`: strings capped at 500, numbers and
booleans as-is, lists capped at 20 items, nested dicts capped at 10 entries
with keys capped at 50 and stringified values at 100; values of any other
type are skipped entirely (no assignment happens). -/
def sanitizeMetaValue : PyVal → Option PyVal
  | .vstr s => some (.vstr ((sanitizeText s).take 500))
  | .vint n => some (.vint n)
  | .vbool b => some (.vbool b)
  | .vlist xs => some (.vlist ((xs.take 20).filterMap sanitizeMetaItem))
  | .vdict es => some (.vdict ((es.take 10).map fun e =>
      ((sanitizeText e.1).take 50, .vstr ((sanitizeText (pyStr e.2)).take 100))))
  | .vnone => none

/-- `DataValidator._sanitize_metadata(metadata)`: build a fresh dict,
assigning under the sanitized key (capped at 50); metadata keys are strings
in this model, so Python's `str(key)` is the identity. -/
def sanitizeMetadata (md : List (Str × PyVal)) : List (Str × PyVal) :=
  md.foldl
    (fun acc e =>
      match sanitizeMetaValue e.2 with
      | some v => dictSet acc ((sanitizeText e.1).take 50) v
      | none => acc)
    []

/-- One text field of `sanitize_search_result`: sanitized only when present
and truthy.  A truthy non-string value would raise inside Python's
`html.unescape`; such fields are modelled as sanitizing to `""`. -/
def sanitizeTextField (r : PyDict) (k : Str) : PyDict :=
  match dictGet r k with
  | some v =>
    if pyTruthy v then dictSet r k (.vstr (sanitizeText (asStr v))) else r
  | none => r

/-- `DataValidator.sanitize_search_result(result)`: sanitize the five text
fields, the URL, the duration, and the metadata dict (in source order). -/
def sanitizeSearchResult (r : PyDict) : PyDict :=
  let r1 := (["title", "content", "artist", "album", "track"].map
    String.toList).foldl sanitizeTextField r
  let r2 :=
    match dictGet r1 "url".toList with
    | some v => dictSet r1 "url".toList (.vstr (sanitizeUrl (asStr v)))
    | none => r1
  let r3 :=
    match dictGet r2 "duration".toList with
    | some v =>
      dictSet r2 "duration".toList
        (match validateDuration v with
         | some ms => .vint ms
         | none => .vnone)
    | none => r2
  match dictGet r3 "metadata".toList with
  | some (.vdict es) =>
    dictSet r3 "metadata".toList (.vdict (sanitizeMetadata es))
  | _ => r3

/-! ## Music engine base — `src/engines/base_music.py`,
class `MusicEngineBase` -/

/-- Python `int(s)` for decimal strings: surrounding whitespace, an optional
sign, then at least one digit (digit-group underscores are not modelled). -/
def pyInt (s : Str) : Option Int :=
  let t := stripWs s
  if t.head? = some '-' then
    if t.drop 1 ≠ [] ∧ (t.drop 1).all isDigitChar then
      some (-(digitsToNat (t.drop 1) : Int))
    else none
  else if t.head? = some '+' then
    if t.drop 1 ≠ [] ∧ (t.drop 1).all isDigitChar then
      some ((digitsToNat (t.drop 1) : Int))
    else none
  else if t ≠ [] ∧ t.all isDigitChar then some ((digitsToNat t : Int))
  else none

/-- `re.search(r'(\d+)\s*<letter>', s, IGNORECASE)`: leftmost maximal digit
run followed by optional whitespace and the letter; the numeric value of the
run. -/
def searchNumBefore (letter : Char) (s : Str) : Option Nat :=
  (List.range (s.length + 1)).findSome? fun i =>
    let t := s.drop i
    let run := t.takeWhile isDigitChar
    if run = [] then none
    else
      match (t.drop run.length).dropWhile isWs with
      | c :: _ => if lowerChar c = letter then some (digitsToNat run) else none
      | [] => none

/-- The `"3m 45s"` fallback of `parse_duration`: minutes and seconds default
to 0, and `if minutes or seconds` fails when both are zero. -/
def msFallback (s : Str) : Option Int :=
  let minutes := (searchNumBefore 'm' s).getD 0
  let seconds := (searchNumBefore 's' s).getD 0
  if minutes ≠ 0 ∨ seconds ≠ 0 then
    some (((minutes * 60 + seconds : Nat) : Int) * 1000)
  else none

/-- `MusicEngineBase.parse_duration(duration_str)`: a pure digit string is
seconds; a colon-separated string with two or three parts is `MM:SS` or
`HH:MM:SS` (an `int()` failure there raises and yields `None`); a
colon-containing string with another number of parts falls through to the
`"3m 45s"` branch, as does everything else. -/
def parseDuration (s : Str) : Option Int :=
  if s.isEmpty then none
  else if s ≠ [] ∧ s.all isDigitChar then some ((digitsToNat s : Int) * 1000)
  else if ':' ∈ s then
    match splitChar ':' s with
    | [a, b] =>
      match pyInt a, pyInt b with
      | some m, some sec => some ((m * 60 + sec) * 1000)
      | _, _ => none
    | [a, b, c] =>
      match pyInt a, pyInt b, pyInt c with
      | some h, some m, some sec => some ((h * 3600 + m * 60 + sec) * 1000)
      | _, _, _ => none
    | _ => msFallback s
  else msFallback s

/-- One attempt of the feat-pattern keyword alternation
`(?:feat\.|ft\.|featuring)` followed by `\s+` at the head of `t`. -/
def featKeyAt (t : Str) : Bool :=
  (match eatLitCI "feat.".toList t with
   | some r => (eatWs1 r).isSome
   | none => false) ||
  (match eatLitCI "ft.".toList t with
   | some r => (eatWs1 r).isSome
   | none => false) ||
  (match eatLitCI "featuring".toList t with
   | some r => (eatWs1 r).isSome
   | none => false)

/-- Does `\s+(?:feat\.|ft\.|featuring)\s+.*$` match at position `i`?  The
keyword starts with a non-whitespace character, so the greedy `\s+` consumes
the whole whitespace run (`.*$` always matches what remains; titles are
newline-free in this development, where `.` cannot cross a newline). -/
def featMatchAt (s : Str) (i : Nat) : Bool :=
  match s.drop i with
  | c :: _ => isWs c && featKeyAt ((s.drop i).dropWhile isWs)
  | [] => false

/-- `MusicEngineBase.normalize_artist(artist_str)`: cut at the leftmost
feat-match (the pattern swallows everything to the end), then
`' '.join(artist.split())` and strip. -/
def normalizeArtist (a : Str) : Str :=
  let cut :=
    match (List.range (a.length + 1)).find? (fun i => featMatchAt a i) with
    | some i => a.take i
    | none => a
  stripWs (List.intercalate [' '] (pyWords cut))

/-- The `(.+)$` group after a keyword-plus-`\s+` match: the greedy `\s+`
backs off one character when nothing follows the run, so a run of length at
least two donates its last whitespace character to the group. -/
def featGroupAt (r : Str) : Option Str :=
  match r with
  | c :: rest =>
    if isWs c then
      let g := (c :: rest).dropWhile isWs
      if g ≠ [] then some g
      else if rest ≠ [] then some [List.getLastD rest c]
      else none
    else none
  | [] => none

/-- `re.search(r'(?:feat\.|ft\.|featuring)\s+(.+)$', artist_str)`: the
captured group at the leftmost matching position. -/
def featSearchGroup (s : Str) : Option Str :=
  (List.range (s.length + 1)).findSome? fun i =>
    let t := s.drop i
    (match eatLitCI "feat.".toList t with
     | some r => featGroupAt r
     | none => none) <|>
    (match eatLitCI "ft.".toList t with
     | some r => featGroupAt r
     | none => none) <|>
    (match eatLitCI "featuring".toList t with
     | some r => featGroupAt r
     | none => none)

/-- `MusicEngineBase.extract_featured_artists(artist_str)`: the normalized
primary artist (when nonempty), then the featured part split on `,`/`&`,
stripped, empties dropped. -/
def extractFeaturedArtists (a : Str) : List Str :=
  let primary := normalizeArtist a
  let base := if primary.isEmpty then [] else [primary]
  match featSearchGroup a with
  | some featured =>
    base ++ (((splitByPred (fun c => c = ',' || c = '&') featured).map
      stripWs).filter fun x => !x.isEmpty)
  | none => base

/-- One attempt of `\b(19\d{2}|20\d{2})\b` at position `i`. -/
def yearAt (s : Str) (i : Nat) : Option Nat :=
  let t := s.drop i
  let four := t.take 4
  if boundaryAt s i ∧ four.length = 4 ∧ four.all isDigitChar ∧
      ("19".toList.isPrefixOf four ∨ "20".toList.isPrefixOf four) ∧
      !wordCharAt s (i + 4) then
    some (digitsToNat four)
  else none

/-- `re.search(r'\b(19\d{2}|20\d{2})\b', date_str)`. -/
def searchYear (s : Str) : Option Nat :=
  (List.range (s.length + 1)).findSome? (yearAt s)

/-- The Gregorian month lengths, with the proleptic leap rule `datetime`
uses. -/
def daysInMonth (y m : Nat) : Nat :=
  if m = 2 then
    if y % 4 = 0 ∧ (y % 100 ≠ 0 ∨ y % 400 = 0) then 29 else 28
  else if m = 4 ∨ m = 6 ∨ m = 9 ∨ m = 11 then 30
  else 31

/-- A calendar-valid `datetime` date (`MINYEAR = 1`). -/
def validDate (y m d : Nat) : Bool :=
  1 ≤ y ∧ y ≤ 9999 ∧ 1 ≤ m ∧ m ≤ 12 ∧ 1 ≤ d ∧ d ≤ daysInMonth y m

/-- Consume 1 to `maxLen` digits (greedily); the separators of the formats
below are never digits, so `strptime`'s backtracking never helps. -/
def eatNum (maxLen : Nat) (t : Str) : Option (Nat × Str) :=
  let run := (t.takeWhile isDigitChar).take maxLen
  if run = [] then none else some (digitsToNat run, t.drop run.length)

/-- The English month names, for `%B` (matched case-insensitively). -/
def monthNames : List (Str × Nat) :=
  [("january".toList, 1), ("february".toList, 2), ("march".toList, 3),
   ("april".toList, 4), ("may".toList, 5), ("june".toList, 6),
   ("july".toList, 7), ("august".toList, 8), ("september".toList, 9),
   ("october".toList, 10), ("november".toList, 11), ("december".toList, 12)]

/-- Consume a `%B` month name. -/
def eatMonthName (t : Str) : Option (Nat × Str) :=
  monthNames.findSome? fun e =>
    if startsWithCI e.1 t then some (e.2, t.drop e.1.length) else none

/-- `strptime(s, "%Y<sep>%m<sep>%d")`, full-string. -/
def parseYmd (sep : Char) (s : Str) : Option Nat :=
  match eatNum 4 s with
  | some (y, sep1 :: r1) =>
    if sep1 = sep then
      match eatNum 2 r1 with
      | some (m, sep2 :: r2) =>
        if sep2 = sep then
          match eatNum 2 r2 with
          | some (d, []) => if validDate y m d then some y else none
          | _ => none
        else none
      | _ => none
    else none
  | _ => none

/-- `strptime(s, "%d/%m/%Y")`, full-string. -/
def parseDmy (s : Str) : Option Nat :=
  match eatNum 2 s with
  | some (d, '/' :: r1) =>
    match eatNum 2 r1 with
    | some (m, '/' :: r2) =>
      match eatNum 4 r2 with
      | some (y, []) => if validDate y m d then some y else none
      | _ => none
    | _ => none
  | _ => none

/-- `strptime(s, "%B %d, %Y")`, full-string. -/
def parseBdY (s : Str) : Option Nat :=
  match eatMonthName s with
  | some (m, ' ' :: r1) =>
    match eatNum 2 r1 with
    | some (d, ',' :: ' ' :: r2) =>
      match eatNum 4 r2 with
      | some (y, []) => if validDate y m d then some y else none
      | _ => none
    | _ => none
  | _ => none

/-- `strptime(s, "%d %B %Y")`, full-string. -/
def parseDBY (s : Str) : Option Nat :=
  match eatNum 2 s with
  | some (d, ' ' :: r1) =>
    match eatMonthName r1 with
    | some (m, ' ' :: r2) =>
      match eatNum 4 r2 with
      | some (y, []) => if validDate y m d then some y else none
      | _ => none
    | _ => none
  | _ => none

/-- `MusicEngineBase.extract_year(date_str)`: a four-digit `19xx`/`20xx`
word wins; otherwise the five `strptime` formats are tried in order. -/
def extractYear (s : Str) : Option Nat :=
  if s.isEmpty then none
  else
    match searchYear s with
    | some y => some y
    | none =>
      (parseYmd '-' s) <|> (parseYmd '/' s) <|> (parseDmy s) <|>
        (parseBdY s) <|> (parseDBY s)

/-- Set a key when the optional value is present (several `standardize`
steps have the shape `if <key> in raw: result[<k>] = <v>`). -/
def setOpt (r : PyDict) (k : Str) (o : Option PyVal) : PyDict :=
  match o with
  | some v => dictSet r k v
  | none => r

/-- The value `standardize_result` stores under `genres`: an existing list
is kept, a non-list `genres` or a `genre` is wrapped as `[str(v)]`. -/
def genresValue (raw : PyDict) : Option PyVal :=
  match dictGet raw "genres".toList with
  | some (.vlist xs) => some (.vlist xs)
  | some v => some (.vlist [.vstr (pyStr v)])
  | none =>
    match dictGet raw "genre".toList with
    | some v => some (.vlist [.vstr (pyStr v)])
    | none => none

/-- The `m:ss` rendering of the `content` line
(`f"{minutes}:{seconds:02d}"`, with Python's floor `//` and `%`). -/
def contentDuration (ms : Int) : Str :=
  let durationSec := Int.fdiv ms 1000
  let minutes := Int.fdiv durationSec 60
  let seconds := Int.emod durationSec 60
  intToStr minutes ++ ':' :: pad2 seconds.toNat

/-- `MusicEngineBase.standardize_result(raw_result)`, step by step in
source order.  Every write is a Python dict assignment (`dictSet`); the
conditional writes are `setOpt`. -/
def standardize (raw : PyDict) : PyDict :=
  let result : PyDict :=
    [("url".toList, dictGetD raw "url".toList (.vstr [])),
     ("title".toList, dictGetD raw "title".toList (.vstr [])),
     ("content".toList, .vstr []),
     ("template".toList, .vstr "default.html".toList)]
  let artistStr := asStr (dictGetD raw "artist".toList (.vstr []))
  let result := dictSet result "artist".toList
    (.vstr (normalizeArtist artistStr))
  let result := dictSet result "artists".toList
    (.vlist ((extractFeaturedArtists artistStr).map .vstr))
  let result := setOpt result "album".toList (dictGet raw "album".toList)
  let result := setOpt result "duration_ms".toList
    ((dictGet raw "duration".toList).bind fun v =>
      match parseDuration (pyStr v) with
      | some ms => if ms ≠ 0 then some (.vint ms) else none
      | none => none)
  let result := setOpt result "preview_url".toList
    (dictGet raw "preview_url".toList)
  let result := setOpt result "thumbnail".toList
    (dictGet raw "thumbnail".toList <|> dictGet raw "image".toList)
  let result := setOpt result "release_date".toList
    (dictGet raw "release_date".toList)
  let result := setOpt result "year".toList
    ((dictGet raw "release_date".toList).bind fun v =>
      (extractYear (asStr v)).map fun y => .vint (y : Int))
  let result := setOpt result "genres".toList (genresValue raw)
  let result := setOpt result "isrc".toList (dictGet raw "isrc".toList)
  let result := setOpt result "mbid".toList (dictGet raw "mbid".toList)
  let result := dictSet result "engine_data".toList
    (.vdict (raw.filter fun e => !hasKey result e.1))
  let contentParts : List Str :=
    (if pyTruthy (dictGetD result "artist".toList .vnone) then
      [asStr (dictGetD result "artist".toList (.vstr []))] else []) ++
    (if pyTruthy (dictGetD result "album".toList .vnone) then
      ["Album: ".toList ++ pyStr (dictGetD result "album".toList .vnone)]
     else []) ++
    (match dictGet result "duration_ms".toList with
     | some (.vint ms) => if ms ≠ 0 then [contentDuration ms] else []
     | _ => [])
  let result := dictSet result "content".toList
    (.vstr (List.intercalate " • ".toList contentParts))
  let result := dictSet result "metadata".toList
    (.vdict
      [("artist".toList, dictGetD result "artist".toList (.vstr [])),
       ("track".toList, dictGetD result "title".toList (.vstr [])),
       ("album".toList, dictGetD result "album".toList (.vstr [])),
       ("duration".toList, dictGetD result "duration_ms".toList .vnone),
       ("genres".toList, dictGetD result "genres".toList (.vlist []))])
  setOpt result "key".toList
    (if hasKey result "key".toList then none
     else some (.vstr ((md5hex
       (pyStr (dictGetD result "title".toList (.vstr [])) ++
        pyStr (dictGetD result "url".toList (.vstr [])))).take 16)))

/-- A raw result whose title is 501 characters of plain text: sanitization
leaves its length untouched. -/
def overlongTitleResult : PyDict :=
  [("title".toList, .vstr (List.replicate 501 'a'))]

/-- A raw result whose title recreates `javascript:` when the event-handler
pattern `onx =` is removed from `javasonx =cript:alert(1)`. -/
def handlerSpliceResult : PyDict :=
  [("title".toList, .vstr "javasonx =cript:alert(1)".toList)]

/-- A metadata dict with one overlong string value, to instantiate the cap
theorem. -/
def overlongMetadata : List (Str × PyVal) :=
  [("key".toList, .vstr (List.replicate 600 'b'))]

/-- A raw result with a featured artist and a string duration: the second
`standardize_result` application loses both. -/
def sampleRaw : PyDict :=
  [("url".toList, .vstr "u".toList),
   ("title".toList, .vstr "T".toList),
   ("artist".toList, .vstr "A feat. B".toList),
   ("duration".toList, .vstr "3:45".toList)]

/-- A concrete music result (title, soundcloud engine, 3:45 duration in the
content) used to instantiate the classifier theorems. -/
def sampleMusicResult : PyDict :=
  [("title".toList, .vstr "Daft Punk - Around the World".toList),
   ("url".toList, .vstr "https://soundcloud.com/x".toList),
   ("content".toList, .vstr "3:45".toList),
   ("engine".toList, .vstr "soundcloud".toList)]

/-- A concrete result whose radio score is exactly 0.7: radio title hit
(+0.3), no URL token, radio content hit (+0.2), missing duration (+0.2). -/
def radioBoundaryResult : PyDict :=
  [("title".toList, .vstr "radio".toList),
   ("url".toList, .vstr "https://x.co/p".toList),
   ("content".toList, .vstr "radio".toList)]

/-- A concrete result whose radio score is 1.0: radio title, `fm` URL token,
radio content, missing duration. -/
def radioSampleResult : PyDict :=
  [("title".toList, .vstr "radio".toList),
   ("url".toList, .vstr "https://fm.example/x".toList),
   ("content".toList, .vstr "radio".toList),
   ("engine".toList, .vstr "soundcloud".toList)]

/-! ## Claims C1 and C8 -/

/-- **C1** (code bug): the claim that `RateLimiter.acquire(identifier, L, P)`
grants at most `L` calls within any sliding window of `P` seconds fails on
the code.  The sorted-set member is `str(now)`, so all grants within one
integer second collapse to a single member: with `limit = 2`, `period = 60`,
three acquire calls during the same second (`now = 1000`) are all granted —
three grants inside one 60-second window, exceeding the limit of 2. -/
theorem rate_limiter_same_second_overgrant :
    RateLimiter.acquireTrace 2 60 [1000, 1000, 1000] ∅ =
      [true, true, true] ∧
    (RateLimiter.acquireTrace 2 60 [1000, 1000, 1000] ∅).count true = 3 ∧
    2 < 3 := by
  refine ⟨by decide, by decide, by decide⟩

/-- **C8**: on store errors the rate limiter fails open and the cache fails
closed to a miss: a raising pipeline makes `acquire` return `true`; a raising
`zadd` (reached when the pruned count is under the limit) still yields
`true`; and a raising Redis `get` makes `MusicCache.get` return `None`. -/
theorem store_error_fail_open_cache_miss :
    (∀ (limit period now : Nat) (zf : Bool),
        (RateLimiter.acquireFallible limit period now .err zf).1 = true) ∧
    (∀ (limit period now : Nat) (s : RateLimiter.Window),
        (RateLimiter.prune period now s).card < limit →
        (RateLimiter.acquireFallible limit period now (.ok s) true).1 = true) ∧
    (∀ (enabled : Bool), cacheGet enabled .err = none) := by
  refine ⟨fun _ _ _ _ => rfl, fun limit period now s h => ?_, fun e => ?_⟩
  · simp [RateLimiter.acquireFallible, h]
  · cases e <;> rfl

/-- Witness for C8 at concrete inputs. -/
theorem store_error_fail_open_cache_miss_witness :
    (RateLimiter.acquireFallible 5 60 100 .err false).1 = true ∧
    (RateLimiter.acquireFallible 5 60 100 (.ok ∅) true).1 = true ∧
    cacheGet true .err = none :=
  ⟨store_error_fail_open_cache_miss.1 5 60 100 false,
   store_error_fail_open_cache_miss.2.1 5 60 100 ∅ (by decide),
   store_error_fail_open_cache_miss.2.2 true⟩

/-! ## Dict lemmas -/

/-- `dictGet` after `dictSet` at the written key. -/
theorem dictGet_dictSet_same (d : PyDict) (k : Str) (v : PyVal) :
    dictGet (dictSet d k v) k = some v := by
  induction d with
  | nil => simp [dictSet, dictGet]
  | cons e rest ih =>
    obtain ⟨k0, v0⟩ := e
    by_cases h : k0 = k
    · simp [dictSet, dictGet, h]
    · simp [dictSet, dictGet, h, ih]

/-- `dictGet` after `dictSet` at a different key. -/
theorem dictGet_dictSet_ne (d : PyDict) (k k' : Str) (v : PyVal)
    (h : k ≠ k') : dictGet (dictSet d k v) k' = dictGet d k' := by
  induction d with
  | nil => simp [dictSet, dictGet, h]
  | cons e rest ih =>
    obtain ⟨k0, v0⟩ := e
    by_cases h0 : k0 = k
    · subst h0; simp [dictSet, dictGet, h]
    · simp [dictSet, dictGet, h0, ih]

/-! ## Claims C6 and C10 -/

/-- **C6** (counterexample): a result whose radio score is exactly 0.7 — the
threshold the claim says suffices — is not classified `radio-station`: the
code tests `radio_score > 0.7` strictly, and the result falls through to
`unknown` with confidence 0. -/
theorem radio_threshold_not_inclusive :
    radioScoreOf radioBoundaryResult = 70 ∧
    classify radioBoundaryResult = ("unknown".toList, 0) := by
  exact ⟨by decide, by decide⟩

/-- **C6** (amended): for every result to which no engine-based override
applies, a radio score strictly greater than 0.7 makes `classify` return
`radio-station` with that score as the confidence. -/
theorem radio_score_classification (r : PyDict)
    (h1 : engineOf r ≠ "radio browser".toList)
    (h2 : engineOf r ≠ "genius".toList)
    (h3 : engineOf r ≠ "genius lyrics".toList)
    (h4 : 70 < radioScoreOf r) :
    classify r = ("radio_station".toList, radioScoreOf r) := by
  unfold classify
  rw [if_neg h1, if_neg (not_or.mpr ⟨h2, h3⟩), if_pos h4]

/-- Witness for the amended C6 at a concrete result with radio score 1.0. -/
theorem radio_score_classification_witness :
    classify radioSampleResult = ("radio_station".toList, 100) :=
  (radio_score_classification radioSampleResult (by decide) (by decide)
    (by decide) (by decide)).trans (by decide)

/-- **C10**: `filter_results` annotates every input result — also the
dropped ones — with `_content_type` and `_confidence` from its
classification, changes no other field of any input result, and returns
exactly the annotated results whose content type is in the allowed set, in
input order. -/
theorem filter_results_frame (rs : List PyDict) (allowed : List Str) :
    (∀ r ∈ rs,
        dictGet (annotate r) "_content_type".toList =
          some (.vstr (classify r).1) ∧
        dictGet (annotate r) "_confidence".toList =
          some (.vint ((classify r).2 : Int)) ∧
        ∀ k : Str, k ≠ "_content_type".toList → k ≠ "_confidence".toList →
          dictGet (annotate r) k = dictGet r k) ∧
    filterResults rs allowed =
      (rs.filter fun r => decide ((classify r).1 ∈ allowed)).map annotate := by
  constructor
  · intro r _
    refine ⟨?_, ?_, ?_⟩
    · rw [annotate, dictGet_dictSet_ne _ _ _ _ (by decide), dictGet_dictSet_same]
    · rw [annotate, dictGet_dictSet_same]
    · intro k h1 h2
      rw [annotate, dictGet_dictSet_ne _ _ _ _ (Ne.symm h2),
        dictGet_dictSet_ne _ _ _ _ (Ne.symm h1)]
  · induction rs with
    | nil => rfl
    | cons r rest ih =>
      by_cases h : (classify r).1 ∈ allowed
      · simp [filterResults, h, ih]
      · simp [filterResults, h, ih]

/-- Witness for C10 at a concrete music result and the default allowed
set. -/
theorem filter_results_frame_witness :
    dictGet (annotate sampleMusicResult) "_content_type".toList =
      some (.vstr "music_track".toList) ∧
    dictGet (annotate sampleMusicResult) "title".toList =
      dictGet sampleMusicResult "title".toList ∧
    filterResults [sampleMusicResult] defaultAllowed =
      [annotate sampleMusicResult] := by
  have h := filter_results_frame [sampleMusicResult] defaultAllowed
  refine ⟨?_, ?_, ?_⟩
  · rw [(h.1 sampleMusicResult (by simp)).1]; rfl
  · exact (h.1 sampleMusicResult (by simp)).2.2 "title".toList
      (by decide) (by decide)
  · rw [h.2]; rfl

/-! ## Decimal-rendering lemmas -/

/-- The fuel-driven digit list agrees with `Nat.digits` when the fuel
suffices. -/
theorem natDigitsRev_eq_digits (fuel n : Nat) (h : n ≤ fuel) :
    natDigitsRev fuel n = Nat.digits 10 n := by
  induction fuel generalizing n with
  | zero =>
    have : n = 0 := Nat.le_zero.mp h
    subst this; simp [natDigitsRev]
  | succ fuel ih =>
    by_cases h0 : n = 0
    · subst h0; simp [natDigitsRev]
    · rw [natDigitsRev, if_neg h0, Nat.digits_def' (by norm_num) (Nat.pos_of_ne_zero h0),
        ih (n / 10) ?_]
      have : n / 10 < n := Nat.div_lt_self (Nat.pos_of_ne_zero h0) (by norm_num)
      omega

/-- Code of a decimal digit character. -/
theorem digitChar_toNat (d : Nat) (h : d < 10) : (digitChar d).toNat = 48 + d := by
  interval_cases d <;> rfl

/-- Decimal digit characters are not newlines. -/
theorem digitChar_ne_newline (d : Nat) (h : d < 10) : digitChar d ≠ '\n' := by
  intro hc
  have h1 := congrArg Char.toNat hc
  rw [digitChar_toNat d h] at h1
  have h2 : ('\n').toNat = 10 := rfl
  omega

/-- Every character of `natToStr n` is a decimal digit character. -/
theorem natToStr_chars (n : Nat) :
    ∀ c ∈ natToStr n, ∃ d, d < 10 ∧ c = digitChar d := by
  intro c hc
  by_cases h0 : n = 0
  · subst h0
    have he : natToStr 0 = ['0'] := rfl
    rw [he, List.mem_singleton] at hc
    exact ⟨0, by norm_num, hc⟩
  · unfold natToStr at hc
    rw [if_neg h0, List.mem_reverse, List.mem_map] at hc
    obtain ⟨d, hd, rfl⟩ := hc
    rw [natDigitsRev_eq_digits n n le_rfl] at hd
    exact ⟨d, Nat.digits_lt_base (by norm_num) hd, rfl⟩

/-- `natToStr` never contains a newline. -/
theorem newline_not_mem_natToStr (n : Nat) : '\n' ∉ natToStr n := by
  intro h
  obtain ⟨d, hd, hc⟩ := natToStr_chars n '\n' h
  exact digitChar_ne_newline d hd hc.symm

/-- `intToStr` never contains a newline. -/
theorem newline_not_mem_intToStr (n : Int) : '\n' ∉ intToStr n := by
  unfold intToStr
  split
  · intro h
    rcases List.mem_cons.mp h with h | h
    · exact absurd h.symm (by decide)
    · exact newline_not_mem_natToStr _ h
  · exact newline_not_mem_natToStr _

/-- Folding the decimal-accumulation step over a rendered digit list. -/
theorem foldl_digits_aux (ds : List Nat) (h : ∀ d ∈ ds, d < 10) (a : Nat) :
    ((ds.reverse.map digitChar).foldl (fun acc c => acc * 10 + (c.toNat - 48)) a) =
      a * 10 ^ ds.length + Nat.ofDigits 10 ds := by
  induction ds generalizing a with
  | nil => simp
  | cons d ds ih =>
    have hd : d < 10 := h d (List.mem_cons_self d ds)
    have h' : ∀ x ∈ ds, x < 10 := fun x hx => h x (List.mem_cons_of_mem d hx)
    rw [List.reverse_cons, List.map_append, List.foldl_append, ih h' a]
    simp only [List.map_cons, List.map_nil, List.foldl_cons, List.foldl_nil,
      digitChar_toNat d hd, Nat.add_sub_cancel_left]
    rw [Nat.ofDigits_cons, List.length_cons, pow_succ]
    ring

/-- Parsing the decimal rendering of `n` gives back `n`. -/
theorem digitsToNat_natToStr (n : Nat) : digitsToNat (natToStr n) = n := by
  unfold natToStr digitsToNat
  by_cases h0 : n = 0
  · subst h0; rfl
  · rw [if_neg h0, natDigitsRev_eq_digits n n le_rfl, ← List.map_reverse,
      foldl_digits_aux _ (fun d hd => Nat.digits_lt_base (by norm_num) hd) 0]
    simp [Nat.ofDigits_digits]

/-! ## Claims C7 and C9 -/

/-- **C7**: `_calculate_popularity` is exactly the capped sum of the fixed
per-engine weights plus ten per platform; hence the score never exceeds 100
(and, as a natural number, is at least 0). -/
theorem popularity_formula (t : UnifiedTrack) :
    calculatePopularity t =
      min 100 ((t.platforms.map fun p => platformWeight p.1).sum +
        10 * t.platforms.length) ∧
    calculatePopularity t ≤ 100 ∧
    platformWeight "youtube".toList = 30 ∧
    platformWeight "spotify".toList = 25 ∧
    platformWeight "soundcloud".toList = 20 ∧
    platformWeight "bandcamp".toList = 15 ∧
    platformWeight "deezer".toList = 10 ∧
    platformWeight "mixcloud".toList = 10 ∧
    platformWeight "genius".toList = 5 ∧
    platformWeight "some other engine".toList = 5 := by
  refine ⟨by rw [calculatePopularity, Nat.mul_comm], ?_,
    by decide, by decide, by decide, by decide, by decide, by decide,
    by decide, by decide⟩
  rw [calculatePopularity]
  exact Nat.min_le_left _ _

/-! ### Line structure of the M3U export -/

/-- `splitLines` of a newline-fronted string. -/
theorem splitLines_newline_cons (rest : Str) :
    splitLines ('\n' :: rest) = [] :: splitLines rest := by
  simp [splitLines]

/-- `splitLines` splits off a newline-free first line. -/
theorem splitLines_cons_line (line rest : Str) (h : '\n' ∉ line) :
    splitLines (line ++ '\n' :: rest) = line :: splitLines rest := by
  induction line with
  | nil => simp [splitLines]
  | cons c cs ih =>
    have hc : ¬(c = '\n') := fun hh => h (by simp [hh])
    have h' : '\n' ∉ cs := fun hh => h (List.mem_cons_of_mem c hh)
    simp only [List.cons_append, splitLines, if_neg hc, List.append_eq, ih h']

/-- The EXTINF line of a track with newline-free artist and title contains
no newline. -/
theorem newline_not_mem_extinfLine (t : UnifiedTrack)
    (ha : '\n' ∉ t.artist) (ht : '\n' ∉ t.title) : '\n' ∉ extinfLine t := by
  unfold extinfLine
  intro h
  rcases List.mem_append.mp h with h | h
  · rcases List.mem_append.mp h with h | h
    · rcases List.mem_append.mp h with h | h
      · rcases List.mem_append.mp h with h | h
        · exact absurd h (by decide)
        · exact newline_not_mem_intToStr _ h
      · rcases List.mem_cons.mp h with h | h
        · exact absurd h (by decide)
        · exact ha h
    · exact absurd h (by decide)
  · exact ht h

/-- Every EXTINF line carries the `#EXTINF:` prefix. -/
theorem extinf_prefix (t : UnifiedTrack) :
    "#EXTINF:".toList.isPrefixOf (extinfLine t) = true := by
  rw [List.isPrefixOf_iff_prefix]
  exact ⟨_, rfl⟩

/-- A URL produced by `firstUrl` belongs to the track's platforms map. -/
theorem firstUrl_mem (t : UnifiedTrack) (u : Str) (h : firstUrl t = some u) :
    ∃ e ∈ t.platforms, e.2.url = u := by
  unfold firstUrl at h
  cases hfind : t.platforms.find? fun p => !p.2.url.isEmpty with
  | none => rw [hfind] at h; simp at h
  | some e =>
    rw [hfind] at h
    simp only [Option.map_some', Option.some.injEq] at h
    exact ⟨e, List.mem_of_find?_eq_some hfind, h⟩

/-- Line structure of the concatenated per-track chunks. -/
theorem m3u_chunks_lines (ts : List UnifiedTrack)
    (h : ∀ t ∈ ts, '\n' ∉ t.artist ∧ '\n' ∉ t.title ∧
        ∀ e ∈ t.platforms, '\n' ∉ e.2.url) :
    splitLines ((ts.map m3uChunk).flatten) =
      (ts.filterMap fun t =>
        (firstUrl t).map fun u => [extinfLine t, u, ([] : Str)]).flatten ++
        [[]] := by
  induction ts with
  | nil => simp [splitLines]
  | cons t ts ih =>
    obtain ⟨ha, ht, hu⟩ := h t (List.mem_cons_self t ts)
    have hrest := fun x hx => h x (List.mem_cons_of_mem t hx)
    simp only [List.map_cons, List.flatten_cons, List.filterMap_cons]
    cases hfu : firstUrl t with
    | none => simpa [m3uChunk, hfu] using ih hrest
    | some u =>
      have hu' : '\n' ∉ u := by
        obtain ⟨e, he, rfl⟩ := firstUrl_mem t u hfu
        exact hu e he
      simp only [m3uChunk, hfu, Option.map_some', List.append_assoc,
        List.cons_append, List.nil_append]
      rw [splitLines_cons_line _ _ (newline_not_mem_extinfLine t ha ht),
        splitLines_cons_line _ _ hu', splitLines_newline_cons, ih hrest]
      simp

/-- Counting the EXTINF lines of the assembled chunk lines. -/
theorem m3u_chunks_count (ts : List UnifiedTrack)
    (h : ∀ t ∈ ts, ∀ e ∈ t.platforms,
        ¬"#EXTINF:".toList.isPrefixOf e.2.url = true) :
    ((ts.filterMap fun t =>
        (firstUrl t).map fun u => [extinfLine t, u, ([] : Str)]).flatten ++
        [[]]).countP (fun l => "#EXTINF:".toList.isPrefixOf l) =
      (ts.filter fun t => (firstUrl t).isSome).length := by
  induction ts with
  | nil => simp [List.countP_cons]
  | cons t ts ih =>
    have hrest := fun x hx => h x (List.mem_cons_of_mem t hx)
    simp only [List.filterMap_cons, List.filter_cons]
    cases hfu : firstUrl t with
    | none => simpa [hfu] using ih hrest
    | some u =>
      have hu2 : "#EXTINF:".toList.isPrefixOf u = false := by
        obtain ⟨e, he, rfl⟩ := firstUrl_mem t u hfu
        exact Bool.eq_false_iff.mpr (h t (List.mem_cons_self t ts) e he)
      have hnil : "#EXTINF:".toList.isPrefixOf ([] : Str) = false := by decide
      simp only [Option.map_some', Option.isSome_some, if_true,
        List.flatten_cons, List.append_assoc, List.cons_append,
        List.nil_append, List.countP_cons, List.length_cons]
      rw [ih hrest, extinf_prefix t, hu2, hnil]
      simp

/-- **C9** (amended): for a playlist whose name, artists, titles and
platform URLs are newline-free and whose URLs do not themselves start with
`#EXTINF:`, the export begins with the `#EXTM3U` header, and contains
exactly one `#EXTINF:<duration or -1>,<artist> - <title>` line per track
that has at least one platform URL — each immediately followed by that URL —
while tracks with no platform URL are omitted. -/
theorem m3u_export_shape (p : UniversalPlaylist)
    (hname : '\n' ∉ p.name)
    (hfields : ∀ t ∈ p.tracks, '\n' ∉ t.artist ∧ '\n' ∉ t.title ∧
        ∀ e ∈ t.platforms, '\n' ∉ e.2.url ∧
          ¬"#EXTINF:".toList.isPrefixOf e.2.url = true) :
    splitLines (exportToM3u p) =
      "#EXTM3U".toList :: ("#PLAYLIST:".toList ++ p.name) :: [] ::
        ((p.tracks.filterMap fun t =>
            (firstUrl t).map fun u => [extinfLine t, u, ([] : Str)]).flatten ++
          [[]]) ∧
    countExtinfLines (exportToM3u p) =
      (p.tracks.filter fun t => (firstUrl t).isSome).length := by
  have hlines : ∀ t ∈ p.tracks, '\n' ∉ t.artist ∧ '\n' ∉ t.title ∧
      ∀ e ∈ t.platforms, '\n' ∉ e.2.url :=
    fun t ht => ⟨(hfields t ht).1, (hfields t ht).2.1,
      fun e he => ((hfields t ht).2.2 e he).1⟩
  have hpfx : ∀ t ∈ p.tracks, ∀ e ∈ t.platforms,
      ¬"#EXTINF:".toList.isPrefixOf e.2.url = true :=
    fun t ht e he => ((hfields t ht).2.2 e he).2
  have hsplit : splitLines (exportToM3u p) =
      "#EXTM3U".toList :: ("#PLAYLIST:".toList ++ p.name) :: [] ::
        ((p.tracks.filterMap fun t =>
            (firstUrl t).map fun u => [extinfLine t, u, ([] : Str)]).flatten ++
          [[]]) := by
    have h2 : '\n' ∉ "#PLAYLIST:".toList ++ p.name := by
      intro hh
      rcases List.mem_append.mp hh with hh | hh
      · exact absurd hh (by decide)
      · exact hname hh
    show splitLines ("#EXTM3U".toList ++ '\n' ::
        (("#PLAYLIST:".toList ++ p.name) ++ '\n' ::
          ('\n' :: (p.tracks.map m3uChunk).flatten))) = _
    rw [splitLines_cons_line _ _ (by decide), splitLines_cons_line _ _ h2,
      splitLines_newline_cons, m3u_chunks_lines p.tracks hlines]
  refine ⟨hsplit, ?_⟩
  rw [countExtinfLines, hsplit, List.countP_cons, List.countP_cons,
    List.countP_cons, m3u_chunks_count p.tracks hpfx]
  have e1 : "#EXTINF:".toList.isPrefixOf "#EXTM3U".toList = false := by decide
  have e2 : "#EXTINF:".toList.isPrefixOf ("#PLAYLIST:".toList ++ p.name) =
      false := rfl
  have e3 : "#EXTINF:".toList.isPrefixOf ([] : Str) = false := by decide
  rw [e1, e2, e3]
  simp

/-- Witness for the amended C9 at a one-track playlist. -/
theorem m3u_export_shape_witness :
    splitLines (exportToM3u samplePlaylist) =
      ["#EXTM3U".toList, "#PLAYLIST:mix".toList, [],
       "#EXTINF:428,Daft Punk - Around the World".toList,
       "https://soundcloud.com/x".toList, [], []] ∧
    countExtinfLines (exportToM3u samplePlaylist) = 1 := by
  have h := m3u_export_shape samplePlaylist (by decide) (by decide)
  exact ⟨h.1.trans (by decide), h.2.trans (by decide)⟩

/-- **C9** (counterexample): a playlist with one track available on no
platform exports without any `#EXTINF` line, so the export does not contain
one `#EXTINF` line per track of the playlist. -/
theorem m3u_missing_extinf_for_urlless_track :
    countExtinfLines (exportToM3u urllessPlaylist) = 0 ∧
    urllessPlaylist.tracks.length = 1 := by
  exact ⟨by decide, by decide⟩

/-! ## `setOpt` and `standardize` projection lemmas -/

/-- `setOpt` with a present value is a dict assignment. -/
theorem setOpt_some (r : PyDict) (k : Str) (v : PyVal) :
    setOpt r k (some v) = dictSet r k v := rfl

/-- `setOpt` with an absent value changes nothing. -/
theorem setOpt_none (r : PyDict) (k : Str) : setOpt r k none = r := rfl

/-- Reading another key through `setOpt`. -/
theorem dictGet_setOpt_ne (r : PyDict) (k k' : Str) (o : Option PyVal)
    (h : k ≠ k') : dictGet (setOpt r k o) k' = dictGet r k' := by
  cases o
  · rfl
  · exact dictGet_dictSet_ne r k k' _ h

/-- Reading the written key through `setOpt`. -/
theorem dictGet_setOpt_same (r : PyDict) (k : Str) (o : Option PyVal) :
    dictGet (setOpt r k o) k = o.or (dictGet r k) := by
  cases o
  · rfl
  · simp [setOpt, dictGet_dictSet_same, Option.or]

/-- The `url` of a standardized result is the raw `url` (default `""`). -/
theorem standardize_get_url (r : PyDict) :
    dictGet (standardize r) "url".toList =
      some (dictGetD r "url".toList (.vstr [])) := by
  simp [standardize, dictGet_setOpt_ne, dictGet_dictSet_ne, dictGet]

/-- The `title` of a standardized result is the raw `title`. -/
theorem standardize_get_title (r : PyDict) :
    dictGet (standardize r) "title".toList =
      some (dictGetD r "title".toList (.vstr [])) := by
  simp [standardize, dictGet_setOpt_ne, dictGet_dictSet_ne, dictGet]

/-- The `album` of a standardized result is the raw `album`. -/
theorem standardize_get_album (r : PyDict) :
    dictGet (standardize r) "album".toList = dictGet r "album".toList := by
  simp [standardize, dictGet_setOpt_ne, dictGet_dictSet_ne, dictGet,
    dictGet_setOpt_same]

/-- The `genres` of a standardized result. -/
theorem standardize_get_genres (r : PyDict) :
    dictGet (standardize r) "genres".toList = genresValue r := by
  simp [standardize, dictGet_setOpt_ne, dictGet_dictSet_ne, dictGet,
    dictGet_setOpt_same]

/-- A standardized result has no `duration` key (the parsed value lives
under `duration_ms`, and the raw `duration` moves into `engine_data`). -/
theorem standardize_get_duration (r : PyDict) :
    dictGet (standardize r) "duration".toList = none := by
  simp [standardize, dictGet_setOpt_ne, dictGet_dictSet_ne, dictGet]

/-- A standardized result has no `genre` key. -/
theorem standardize_get_genre (r : PyDict) :
    dictGet (standardize r) "genre".toList = none := by
  simp [standardize, dictGet_setOpt_ne, dictGet_dictSet_ne, dictGet]

/-- The `key` of a standardized result is the 16-character digest prefix of
the concatenated raw title and url. -/
theorem standardize_get_key (r : PyDict) :
    dictGet (standardize r) "key".toList =
      some (.vstr ((md5hex
        (pyStr (dictGetD r "title".toList (.vstr [])) ++
         pyStr (dictGetD r "url".toList (.vstr [])))).take 16)) := by
  simp [standardize, dictGet_setOpt_ne, dictGet_dictSet_ne, dictGet,
    dictGet_dictSet_same, setOpt_some, setOpt_none, hasKey, dictGetD]

/-- Standardizing a dict that lacks a `duration` key yields no
`duration_ms`. -/
theorem standardize_no_duration_ms (r : PyDict)
    (h : dictGet r "duration".toList = none) :
    dictGet (standardize r) "duration_ms".toList = none := by
  have h' : dictGet r ['d', 'u', 'r', 'a', 't', 'i', 'o', 'n'] = none := h
  simp [standardize, dictGet_setOpt_ne, dictGet_dictSet_ne, dictGet, h',
    dictGet_setOpt_same, setOpt_none]

/-- `genresValue` is always absent or a list. -/
theorem genresValue_shape (r : PyDict) :
    genresValue r = none ∨ ∃ xs, genresValue r = some (.vlist xs) := by
  unfold genresValue
  rcases dictGet r "genres".toList with _ | v
  · rcases dictGet r "genre".toList with _ | w
    · exact Or.inl rfl
    · exact Or.inr ⟨_, rfl⟩
  · cases v <;> simp

/-! ## Claims C4 and C5 -/

/-- **C4** (counterexample): `standardize_result` is not idempotent.  On a
raw result with `artist = "A feat. B"` and `duration = "3:45"`, the first
application yields `duration_ms = 225000` and `artists = ["A", "B"]`, but
the second application has no `duration_ms` (the raw `duration` key moved
into `engine_data`) and collapses `artists` to `["A"]`. -/
theorem standardize_not_idempotent :
    dictGet (standardize sampleRaw) "duration_ms".toList =
      some (.vint 225000) ∧
    dictGet (standardize (standardize sampleRaw)) "duration_ms".toList =
      none ∧
    dictGet (standardize sampleRaw) "artists".toList =
      some (.vlist [.vstr "A".toList, .vstr "B".toList]) ∧
    dictGet (standardize (standardize sampleRaw)) "artists".toList =
      some (.vlist [.vstr "A".toList]) :=
  ⟨rfl, rfl, rfl, rfl⟩

/-- Reading the default-guarded `title` through one standardization. -/
theorem standardize_getD_title (r : PyDict) :
    dictGetD (standardize r) "title".toList (.vstr []) =
      dictGetD r "title".toList (.vstr []) := by
  rw [dictGetD, standardize_get_title r, Option.getD_some]

/-- Reading the default-guarded `url` through one standardization. -/
theorem standardize_getD_url (r : PyDict) :
    dictGetD (standardize r) "url".toList (.vstr []) =
      dictGetD r "url".toList (.vstr []) := by
  rw [dictGetD, standardize_get_url r, Option.getD_some]

/-- **C4** (amended): a second application of `standardize_result` agrees
with the first on `url`, `title`, `album`, `genres` and `key`, but its
result never carries `duration_ms`: the field is dropped (and `artists`,
`content`, `engine_data` and `metadata` are rebuilt from the once-processed
values, as the counterexample records). -/
theorem standardize_second_application (r : PyDict) :
    dictGet (standardize (standardize r)) "url".toList =
      dictGet (standardize r) "url".toList ∧
    dictGet (standardize (standardize r)) "title".toList =
      dictGet (standardize r) "title".toList ∧
    dictGet (standardize (standardize r)) "album".toList =
      dictGet (standardize r) "album".toList ∧
    dictGet (standardize (standardize r)) "genres".toList =
      dictGet (standardize r) "genres".toList ∧
    dictGet (standardize (standardize r)) "key".toList =
      dictGet (standardize r) "key".toList ∧
    dictGet (standardize (standardize r)) "duration_ms".toList = none := by
  refine ⟨?_, ?_, ?_, ?_, ?_, ?_⟩
  · rw [standardize_get_url (standardize r), standardize_get_url r,
      standardize_getD_url r]
  · rw [standardize_get_title (standardize r), standardize_get_title r,
      standardize_getD_title r]
  · exact standardize_get_album (standardize r)
  · rw [standardize_get_genres (standardize r)]
    rw [genresValue, standardize_get_genres r, standardize_get_genre r]
    rcases genresValue_shape r with h | ⟨xs, h⟩ <;> rw [h]
  · rw [standardize_get_key (standardize r), standardize_get_key r,
      standardize_getD_title r, standardize_getD_url r]
  · exact standardize_no_duration_ms (standardize r)
      (standardize_get_duration r)

/-- The digest model always renders 32 hex characters. -/
theorem md5hex_length (s : Str) : (md5hex s).length = 32 := by
  simp [md5hex]

/-- **C5**: `standardize_result` derives `key` as the 16-character digest
prefix of `title + url`, so equal titles and urls give equal keys; and
`_generate_unified_id` is a function of the normalized `(artist, title)`
pair, so equal normalizations give equal 12-hex-character unified ids. -/
theorem key_and_unified_id_determinism :
    (∀ r : PyDict, dictGet (standardize r) "key".toList =
      some (.vstr ((md5hex
        (pyStr (dictGetD r "title".toList (.vstr [])) ++
         pyStr (dictGetD r "url".toList (.vstr [])))).take 16))) ∧
    (∀ r1 r2 : PyDict,
      dictGetD r1 "title".toList (.vstr []) =
        dictGetD r2 "title".toList (.vstr []) →
      dictGetD r1 "url".toList (.vstr []) =
        dictGetD r2 "url".toList (.vstr []) →
      dictGet (standardize r1) "key".toList =
        dictGet (standardize r2) "key".toList) ∧
    (∀ t1 a1 t2 a2 : Str, uidNormalize t1 a1 = uidNormalize t2 a2 →
      generateUnifiedId t1 a1 = generateUnifiedId t2 a2) ∧
    (∀ t a : Str, (generateUnifiedId t a).length = 12) := by
  refine ⟨standardize_get_key, ?_, ?_, ?_⟩
  · intro r1 r2 ht hu
    rw [standardize_get_key r1, standardize_get_key r2, ht, hu]
  · intro t1 a1 t2 a2 h
    unfold generateUnifiedId
    rw [h]
  · intro t a
    simp [generateUnifiedId, List.length_take, md5hex_length]

/-- Witness for C5: two different raw dicts with equal title and url get
the same key, and two artist/title pairs with the same normalization get
the same unified id. -/
theorem key_and_unified_id_determinism_witness :
    dictGet (standardize [("title".toList, PyVal.vstr "T".toList),
        ("url".toList, .vstr "u".toList)]) "key".toList =
      dictGet (standardize [("url".toList, PyVal.vstr "u".toList),
        ("title".toList, .vstr "T".toList),
        ("artist".toList, .vstr "X".toList)]) "key".toList ∧
    generateUnifiedId "Song".toList "A feat. B".toList =
      generateUnifiedId "song".toList "a b".toList :=
  ⟨key_and_unified_id_determinism.2.1 _ _ rfl rfl,
   key_and_unified_id_determinism.2.2.1 _ _ _ _ rfl⟩

/-! ## Claim C2 -/

set_option maxRecDepth 10000 in
/-- **C2** (counterexample): `sanitize_search_result` neither caps the
top-level text fields at 500 characters (a 501-character title survives
whole) nor guarantees the absence of the dangerous patterns: removing the
event-handler match `onx =` from `javasonx =cript:alert(1)` splices the
title into `javascript:alert(1)`, which contains the `javascript:`
pattern. -/
theorem sanitize_result_unsafe :
    (asStr (dictGetD (sanitizeSearchResult overlongTitleResult)
      "title".toList (.vstr []))).length = 501 ∧
    500 < 501 ∧
    containsSub "javascript:".toList
      (asStr (dictGetD (sanitizeSearchResult handlerSpliceResult)
        "title".toList (.vstr []))) = true := by
  exact ⟨by decide, by decide, by decide⟩

/-- `List.take` never exceeds its bound. -/
theorem length_take_le {α : Type} (n : Nat) (l : List α) :
    (l.take n).length ≤ n := by
  rw [List.length_take]
  exact min_le_left _ _

/-- Membership in a dict after an assignment. -/
theorem mem_dictSet (d : PyDict) (k : Str) (v : PyVal) :
    ∀ e ∈ dictSet d k v, e = (k, v) ∨ e ∈ d := by
  induction d with
  | nil =>
    intro e he
    simp [dictSet] at he
    exact Or.inl he
  | cons x rest ih =>
    obtain ⟨k0, v0⟩ := x
    intro e he
    rw [dictSet] at he
    by_cases h0 : k0 = k
    · rw [if_pos h0] at he
      rcases List.mem_cons.mp he with h | h
      · exact Or.inl h
      · exact Or.inr (List.mem_cons_of_mem _ h)
    · rw [if_neg h0] at he
      rcases List.mem_cons.mp he with h | h
      · exact Or.inr (h ▸ List.mem_cons_self _ _)
      · rcases ih e h with h1 | h1
        · exact Or.inl h1
        · exact Or.inr (List.mem_cons_of_mem _ h1)

/-- The caps delivered by one sanitized metadata value. -/
theorem sanitizeMetaValue_caps (v w : PyVal)
    (h : sanitizeMetaValue v = some w) :
    (∀ s, w = .vstr s → s.length ≤ 500) ∧
    (∀ xs, w = .vlist xs → ∀ x ∈ xs, ∀ s, x = .vstr s → s.length ≤ 100) ∧
    (∀ es, w = .vdict es → ∀ e ∈ es, e.1.length ≤ 50 ∧
      ∀ s, e.2 = .vstr s → s.length ≤ 100) := by
  cases v with
  | vnone => exact absurd h (by simp [sanitizeMetaValue])
  | vbool b =>
    simp only [sanitizeMetaValue, Option.some.injEq] at h
    subst h
    refine ⟨?_, ?_, ?_⟩
    · intro s hs; simp at hs
    · intro xs hxs; simp at hxs
    · intro es hes; simp at hes
  | vint n =>
    simp only [sanitizeMetaValue, Option.some.injEq] at h
    subst h
    refine ⟨?_, ?_, ?_⟩
    · intro s hs; simp at hs
    · intro xs hxs; simp at hxs
    · intro es hes; simp at hes
  | vstr s0 =>
    simp only [sanitizeMetaValue, Option.some.injEq] at h
    subst h
    refine ⟨?_, ?_, ?_⟩
    · intro s hs
      cases hs
      exact length_take_le _ _
    · intro xs hxs; simp at hxs
    · intro es hes; simp at hes
  | vlist xs0 =>
    simp only [sanitizeMetaValue, Option.some.injEq] at h
    subst h
    refine ⟨?_, ?_, ?_⟩
    · intro s hs; simp at hs
    · intro xs hxs
      cases hxs
      intro x hx s hxv
      obtain ⟨a, _, ha⟩ := List.mem_filterMap.mp hx
      cases a with
      | vstr t =>
        simp only [sanitizeMetaItem, Option.some.injEq] at ha
        rw [← ha] at hxv
        cases hxv
        exact length_take_le _ _
      | vint n =>
        simp only [sanitizeMetaItem, Option.some.injEq] at ha
        rw [← ha] at hxv
        simp at hxv
      | vbool b =>
        simp only [sanitizeMetaItem, Option.some.injEq] at ha
        rw [← ha] at hxv
        simp at hxv
      | vnone => exact absurd ha (by simp [sanitizeMetaItem])
      | vlist ys => exact absurd ha (by simp [sanitizeMetaItem])
      | vdict es => exact absurd ha (by simp [sanitizeMetaItem])
    · intro es hes; simp at hes
  | vdict es0 =>
    simp only [sanitizeMetaValue, Option.some.injEq] at h
    subst h
    refine ⟨?_, ?_, ?_⟩
    · intro s hs; simp at hs
    · intro xs hxs; simp at hxs
    · intro es hes
      cases hes
      intro e he
      obtain ⟨a, _, ha⟩ := List.mem_map.mp he
      refine ⟨?_, ?_⟩
      · rw [← ha]
        exact length_take_le _ _
      · intro s hs
        rw [← ha] at hs
        cases hs
        exact length_take_le _ _

/-- **C2** (amended): `sanitize_search_result` enforces the configured caps
only inside `metadata`: every sanitized metadata key is at most 50
characters, every string value at most 500, every string list item at most
100, and every nested dict entry has a key of at most 50 and a value of at
most 100 characters.  (Top-level text fields are pattern-stripped but not
length-capped, and one removal pass can leave or recreate dangerous
substrings, as the counterexample shows.) -/
theorem sanitize_metadata_caps (md : List (Str × PyVal)) :
    ∀ e ∈ sanitizeMetadata md,
      e.1.length ≤ 50 ∧
      (∀ s, e.2 = .vstr s → s.length ≤ 500) ∧
      (∀ xs, e.2 = .vlist xs → ∀ x ∈ xs, ∀ s, x = .vstr s →
        s.length ≤ 100) ∧
      (∀ es, e.2 = .vdict es → ∀ e2 ∈ es, e2.1.length ≤ 50 ∧
        ∀ s, e2.2 = .vstr s → s.length ≤ 100) := by
  suffices h : ∀ (l : List (Str × PyVal)) (acc : PyDict),
      (∀ e ∈ acc,
        e.1.length ≤ 50 ∧
        (∀ s, e.2 = .vstr s → s.length ≤ 500) ∧
        (∀ xs, e.2 = .vlist xs → ∀ x ∈ xs, ∀ s, x = .vstr s →
          s.length ≤ 100) ∧
        (∀ es, e.2 = .vdict es → ∀ e2 ∈ es, e2.1.length ≤ 50 ∧
          ∀ s, e2.2 = .vstr s → s.length ≤ 100)) →
      ∀ e ∈ l.foldl
        (fun acc e =>
          match sanitizeMetaValue e.2 with
          | some v => dictSet acc ((sanitizeText e.1).take 50) v
          | none => acc) acc,
        e.1.length ≤ 50 ∧
        (∀ s, e.2 = .vstr s → s.length ≤ 500) ∧
        (∀ xs, e.2 = .vlist xs → ∀ x ∈ xs, ∀ s, x = .vstr s →
          s.length ≤ 100) ∧
        (∀ es, e.2 = .vdict es → ∀ e2 ∈ es, e2.1.length ≤ 50 ∧
          ∀ s, e2.2 = .vstr s → s.length ≤ 100) by
    intro e he
    rw [sanitizeMetadata] at he
    exact h md [] (fun e2 he2 => absurd he2 (List.not_mem_nil e2)) e he
  intro l
  induction l with
  | nil => intro acc hacc e he; exact hacc e he
  | cons x rest ih =>
    intro acc hacc e he
    rw [List.foldl_cons] at he
    refine ih _ ?_ e he
    intro e2 he2
    cases hs : sanitizeMetaValue x.2 with
    | none =>
      rw [hs] at he2
      exact hacc e2 he2
    | some v =>
      rw [hs] at he2
      rcases mem_dictSet _ _ _ e2 he2 with h2 | h2
      · subst h2
        exact ⟨length_take_le _ _, sanitizeMetaValue_caps x.2 v hs⟩
      · exact hacc e2 h2

set_option maxRecDepth 10000 in
/-- Witness for the amended C2: a 600-character metadata string value is
capped to 500. -/
theorem sanitize_metadata_caps_witness :
    (List.replicate 500 'b' : Str).length ≤ 500 :=
  (sanitize_metadata_caps overlongMetadata
    ("key".toList, .vstr (List.replicate 500 'b'))
    (List.mem_singleton.mpr rfl)).2.1 (List.replicate 500 'b') rfl

/-! ## Claim C3 -/

/-- Digit characters really are `\d`. -/
theorem isDigitChar_digitChar (d : Nat) (h : d < 10) :
    isDigitChar (digitChar d) = true := by
  interval_cases d <;> rfl

/-- Every character of a decimal rendering is a digit. -/
theorem natToStr_all_digits (n : Nat) :
    ∀ c ∈ natToStr n, isDigitChar c = true := by
  intro c hc
  obtain ⟨d, hd, rfl⟩ := natToStr_chars n c hc
  exact isDigitChar_digitChar d hd

/-- A digit is not a colon. -/
theorem ne_colon_of_digit (c : Char) (h : isDigitChar c = true) :
    c ≠ ':' := by
  intro hc
  subst hc
  exact absurd h (by decide)

/-- A digit is not whitespace. -/
theorem isWs_false_of_digit (c : Char) (h : isDigitChar c = true) :
    isWs c = false := by
  simp only [isDigitChar, decide_eq_true_eq] at h
  simp only [isWs, decide_eq_false_iff_not]
  rintro (rfl | rfl | rfl | rfl | rfl | rfl) <;> exact absurd h (by decide)

/-- `stripWs` is the identity on whitespace-free strings. -/
theorem stripWs_of_no_ws (s : Str) (h : ∀ c ∈ s, isWs c = false) :
    stripWs s = s := by
  have h1 : ∀ (t : Str), (∀ c ∈ t, isWs c = false) → t.dropWhile isWs = t := by
    intro t ht
    cases t with
    | nil => rfl
    | cons a l =>
      rw [List.dropWhile_cons, ht a (List.mem_cons_self a l)]
      simp
  unfold stripWs
  rw [h1 s h, h1 s.reverse (fun c hc => h c (List.mem_reverse.mp hc)),
    List.reverse_reverse]

/-- The fuel-driven digit list of a positive number is nonempty. -/
theorem natDigitsRev_ne_nil (fuel n : Nat) (hf : n ≤ fuel) (hn : n ≠ 0) :
    natDigitsRev fuel n ≠ [] := by
  cases fuel with
  | zero => omega
  | succ f => simp [natDigitsRev, hn]

/-- Decimal renderings are nonempty. -/
theorem natToStr_ne_nil (n : Nat) : natToStr n ≠ [] := by
  unfold natToStr
  by_cases h : n = 0
  · subst h; simp
  · rw [if_neg h]
    intro hc
    rw [List.reverse_eq_nil_iff, List.map_eq_nil_iff] at hc
    exact natDigitsRev_ne_nil n n le_rfl h hc

/-- Every character of a zero-padded rendering is a digit. -/
theorem pad2_all_digits (n : Nat) : ∀ c ∈ pad2 n, isDigitChar c = true := by
  intro c hc
  unfold pad2 at hc
  by_cases h : n < 10
  · rw [if_pos h] at hc
    rcases List.mem_cons.mp hc with h1 | h1
    · subst h1; rfl
    · exact natToStr_all_digits n c h1
  · rw [if_neg h] at hc
    exact natToStr_all_digits n c hc

/-- Zero-padded renderings are nonempty. -/
theorem pad2_ne_nil (n : Nat) : pad2 n ≠ [] := by
  unfold pad2
  by_cases h : n < 10
  · rw [if_pos h]; exact List.cons_ne_nil _ _
  · rw [if_neg h]; exact natToStr_ne_nil n

/-- Parsing a zero-padded rendering. -/
theorem digitsToNat_pad2 (n : Nat) : digitsToNat (pad2 n) = n := by
  unfold pad2
  by_cases h : n < 10
  · rw [if_pos h]
    have h0 : digitsToNat ('0' :: natToStr n) = digitsToNat (natToStr n) := rfl
    rw [h0, digitsToNat_natToStr]
  · rw [if_neg h, digitsToNat_natToStr]

/-- `int()` on a nonempty digit string. -/
theorem pyInt_digits (t : Str) (hne : t ≠ [])
    (hd : ∀ c ∈ t, isDigitChar c = true) :
    pyInt t = some ((digitsToNat t : Int)) := by
  have hws : stripWs t = t :=
    stripWs_of_no_ws t (fun c hc => isWs_false_of_digit c (hd c hc))
  simp only [pyInt, hws]
  cases t with
  | nil => exact absurd rfl hne
  | cons c rest =>
    have hc : isDigitChar c = true := hd c (List.mem_cons_self _ _)
    have h1 : ¬((c :: rest).head? = some '-') := by
      simp only [List.head?_cons, Option.some.injEq]
      intro h
      subst h
      exact absurd hc (by decide)
    have h2 : ¬((c :: rest).head? = some '+') := by
      simp only [List.head?_cons, Option.some.injEq]
      intro h
      subst h
      exact absurd hc (by decide)
    rw [if_neg h1, if_neg h2,
      if_pos ⟨List.cons_ne_nil c rest, List.all_eq_true.mpr hd⟩]

/-- `int()` of a decimal rendering. -/
theorem pyInt_natToStr (n : Nat) : pyInt (natToStr n) = some ((n : Int)) := by
  rw [pyInt_digits (natToStr n) (natToStr_ne_nil n) (natToStr_all_digits n),
    digitsToNat_natToStr]

/-- `int()` of a zero-padded rendering. -/
theorem pyInt_pad2 (n : Nat) : pyInt (pad2 n) = some ((n : Int)) := by
  rw [pyInt_digits (pad2 n) (pad2_ne_nil n) (pad2_all_digits n),
    digitsToNat_pad2]

/-- Splitting at a leading separator. -/
theorem splitByPred_sep (p : Char → Bool) (c : Char) (rest : Str)
    (h : p c = true) :
    splitByPred p (c :: rest) = [] :: splitByPred p rest := by
  simp [splitByPred, h]

/-- Splitting off a separator-free first segment. -/
theorem splitByPred_cons_line (p : Char → Bool) (line : Str) (c : Char)
    (rest : Str) (hline : ∀ x ∈ line, p x = false) (hc : p c = true) :
    splitByPred p (line ++ c :: rest) = line :: splitByPred p rest := by
  induction line with
  | nil => simp [splitByPred, hc]
  | cons a l ih =>
    have ha : p a = false := hline a (List.mem_cons_self a l)
    have h' : ∀ x ∈ l, p x = false :=
      fun x hx => hline x (List.mem_cons_of_mem a hx)
    simp only [List.cons_append, splitByPred, ha, List.append_eq, ih h',
      Bool.false_eq_true, if_false]

/-- Splitting a separator-free string. -/
theorem splitByPred_no_sep (p : Char → Bool) (s : Str)
    (h : ∀ x ∈ s, p x = false) : splitByPred p s = [s] := by
  induction s with
  | nil => rfl
  | cons a l ih =>
    have ha : p a = false := h a (List.mem_cons_self a l)
    have h' : ∀ x ∈ l, p x = false :=
      fun x hx => h x (List.mem_cons_of_mem a hx)
    simp only [splitByPred, ha, ih h', Bool.false_eq_true, if_false]

/-- **C3** (counterexample): `parse_duration` does not implement the
claimed ISO-8601 or magnitude-dependent bare-integer semantics:
`PT1H2M3S` parses to 123000 ms (the hour component is ignored; the claim
says 3723000), and the bare integer `"225000"` parses to 225000000 ms
(digit strings are always seconds; the claim says values `≥ 1000` are
milliseconds). -/
theorem parse_duration_misreads_iso_and_bare_ms :
    parseDuration "PT1H2M3S".toList = some 123000 ∧
    (123000 : Int) ≠ 3723000 ∧
    parseDuration "225000".toList = some 225000000 ∧
    (225000000 : Int) ≠ 225000 := by
  exact ⟨by decide, by decide, by decide, by decide⟩

/-- **C3** (amended): `parse_duration` accepts `MM:SS`, `HH:MM:SS`,
`"3m 45s"` and bare-integer strings, returning milliseconds; a bare integer
is always interpreted as seconds, and an ISO-8601 `PT#H#M#S` string is
parsed by the minutes/seconds regexes only, ignoring hours
(`PT1H2M3S ↦ 123000`).  The magnitude rule of the claim (`< 1000` seconds,
otherwise ms) lives in `DataValidator._validate_duration` and applies to
numeric durations only. -/
theorem parse_duration_formats :
    (∀ m s : Nat, s < 100 →
      parseDuration (natToStr m ++ ':' :: pad2 s) =
        some (((m * 60 + s) * 1000 : Nat))) ∧
    (∀ hh mm ss : Nat, mm < 100 → ss < 100 →
      parseDuration (natToStr hh ++ ':' :: (pad2 mm ++ ':' :: pad2 ss)) =
        some (((hh * 3600 + mm * 60 + ss) * 1000 : Nat))) ∧
    (∀ n : Nat, parseDuration (natToStr n) = some ((n * 1000 : Nat))) ∧
    parseDuration "3m 45s".toList = some 225000 ∧
    parseDuration "PT1H2M3S".toList = some 123000 ∧
    parseDuration "3:45".toList = some 225000 ∧
    parseDuration "1:02:30".toList = some 3750000 ∧
    validateDuration (.vint 500) = some 500000 ∧
    validateDuration (.vint 225000) = some 225000 := by
  have colonFalse : ∀ (t : Str), (∀ c ∈ t, isDigitChar c = true) →
      ∀ x ∈ t, (decide (x = ':') : Bool) = false := by
    intro t ht x hx
    simp only [decide_eq_false_iff_not]
    exact ne_colon_of_digit x (ht x hx)
  have notAll : ∀ (a b : Str),
      ¬(a ++ ':' :: b ≠ [] ∧ (a ++ ':' :: b).all isDigitChar = true) := by
    rintro a b ⟨-, hall⟩
    rw [List.all_append] at hall
    simp only [List.all_cons] at hall
    have hcolon : isDigitChar ':' = false := rfl
    rw [hcolon] at hall
    simp at hall
  have notEmpty : ∀ (a b : Str), (a ++ ':' :: b).isEmpty = false := by
    intro a b
    cases hx : a ++ ':' :: b with
    | nil => exact absurd hx (by simp)
    | cons x l => rfl
  have memColon : ∀ (a b : Str), ':' ∈ a ++ ':' :: b :=
    fun a b => List.mem_append_right _ (List.mem_cons_self _ _)
  refine ⟨?_, ?_, ?_, by decide, by decide, by decide, by decide,
    by decide, by decide⟩
  · intro m s hs
    have hsplit : splitChar ':' (natToStr m ++ ':' :: pad2 s) =
        [natToStr m, pad2 s] := by
      rw [splitChar,
        splitByPred_cons_line _ _ _ _
          (colonFalse _ (natToStr_all_digits m)) (by simp),
        splitByPred_no_sep _ _ (colonFalse _ (pad2_all_digits s))]
    rw [parseDuration, if_neg (by simp [notEmpty]), if_neg (notAll _ _),
      if_pos (memColon _ _), hsplit]
    simp only [pyInt_natToStr m, pyInt_pad2 s]
    norm_cast
  · intro hh mm ss hm hsv
    have hsplit : splitChar ':'
        (natToStr hh ++ ':' :: (pad2 mm ++ ':' :: pad2 ss)) =
        [natToStr hh, pad2 mm, pad2 ss] := by
      rw [splitChar,
        splitByPred_cons_line _ _ _ _
          (colonFalse _ (natToStr_all_digits hh)) (by simp),
        splitByPred_cons_line _ _ _ _
          (colonFalse _ (pad2_all_digits mm)) (by simp),
        splitByPred_no_sep _ _ (colonFalse _ (pad2_all_digits ss))]
    rw [parseDuration, if_neg (by simp [notEmpty]), if_neg (notAll _ _),
      if_pos (memColon _ _), hsplit]
    simp only [pyInt_natToStr hh, pyInt_pad2 mm, pyInt_pad2 ss]
    norm_cast
  · intro n
    have hie : (natToStr n).isEmpty = false := by
      cases hx : natToStr n with
      | nil => exact absurd hx (natToStr_ne_nil n)
      | cons a l => rfl
    rw [parseDuration, if_neg (by simp [hie]),
      if_pos ⟨natToStr_ne_nil n, List.all_eq_true.mpr (natToStr_all_digits n)⟩,
      digitsToNat_natToStr]
    norm_cast

/-- Witness for the amended C3 at concrete durations. -/
theorem parse_duration_formats_witness :
    parseDuration "7:05".toList = some 425000 ∧
    parseDuration "1:02:30".toList = some 3750000 ∧
    parseDuration "45".toList = some 45000 := by
  refine ⟨?_, ?_, ?_⟩
  · have h := parse_duration_formats.1 7 5 (by norm_num)
    exact h.trans (by decide)
  · have h := parse_duration_formats.2.1 1 2 30 (by norm_num) (by norm_num)
    exact h.trans (by decide)
  · have h := parse_duration_formats.2.2.1 45
    exact h.trans (by decide)

end SearxCool
